import Mathlib

/-!
# Verified analytics of the stock-portfolio-pro engine

A shallow embedding, in Lean 4, of the analytics core of `app.py`:
holdings valuation, risk metrics, Monte-Carlo simulation, efficient-frontier
post-processing, rebalancing, dividend aggregation, CSV import and the
base64/JSON portfolio share-link codec.  Market data (quotes, price
history, dividend history, the USD/JPY rate) is supplied by external
collaborators (`yfinance`), so it enters every embedded function as an
explicit environment parameter.  Exact arithmetic uses `ℚ`; quantities the
source derives with `sqrt`/`**` live in `ℝ`.
-/

namespace StockPortfolio

/-- A position of the portfolio list: the dict
`{"ticker": …, "shares": …, "cost_price": …, "buy_date": …}`. -/
structure Position where
  ticker : String
  shares : ℚ
  cost_price : ℚ
  buy_date : String
deriving Repr, DecidableEq

/-- The record returned by `fetch_stock_info` (the fields the analytics
core reads). -/
structure StockInfo where
  name : String
  sector : String
  dividend_yield : ℚ
  current_price : ℚ
  previous_close : ℚ
deriving Repr, DecidableEq

/-- The market-data collaborators, as an explicit environment:
`info t` is `fetch_stock_info(t)`, `hist t` the `Close` column of
`fetch_stock_data(t, period="5d")`, `fx` the value of
`get_exchange_rate()`. -/
structure MarketEnv where
  info : String → StockInfo
  hist : String → List ℚ
  fx : ℚ

/-- `".T" in ticker or ".JP" in ticker` — Python `in` on `str` is
substring containment. -/
def isJpyTicker (ticker : String) : Bool :=
  decide ((".T".data) <:+: ticker.data) || decide ((".JP".data) <:+: ticker.data)

/-- One row of the DataFrame built by `calculate_holdings`. -/
structure HoldingRow where
  ticker : String
  name : String
  sector : String
  currency : String
  shares : ℚ
  cost_price : ℚ
  current_price : ℚ
  prev_close : ℚ
  daily_change : ℚ
  daily_change_pct : ℚ
  market_value : ℚ
  cost_total : ℚ
  pnl : ℚ
  pnl_pct : ℚ
  market_value_jpy : ℚ
  cost_total_jpy : ℚ
  pnl_jpy : ℚ
  dividend_yield : ℚ
  buy_date : String
deriving Repr, DecidableEq

/-- The per-position body of the loop of `calculate_holdings`
(app.py lines 917–972). -/
def holdingRow (env : MarketEnv) (exchange_rate : ℚ) (item : Position) :
    HoldingRow :=
  let ticker := item.ticker
  let shares := item.shares
  let cost_price := item.cost_price
  let info := env.info ticker
  let hist := env.hist ticker
  let current_price :=
    if info.current_price = 0 ∧ hist ≠ [] then hist.getLast?.getD 0
    else info.current_price
  let prev_close :=
    if info.previous_close = 0 ∧ 2 ≤ hist.length then
      hist.getD (hist.length - 2) 0
    else info.previous_close
  let is_jpy := isJpyTicker ticker
  let currency := if is_jpy then "JPY" else "USD"
  let market_value := current_price * shares
  let cost_total := cost_price * shares
  let pnl := market_value - cost_total
  let pnl_pct := if cost_total ≠ 0 then pnl / cost_total * 100 else 0
  let daily_change := if prev_close > 0 then current_price - prev_close else 0
  let daily_change_pct :=
    if prev_close > 0 then daily_change / prev_close * 100 else 0
  let market_value_jpy :=
    if is_jpy then market_value else market_value * exchange_rate
  let cost_total_jpy :=
    if is_jpy then cost_total else cost_total * exchange_rate
  let pnl_jpy := market_value_jpy - cost_total_jpy
  { ticker := ticker
    name := info.name
    sector := info.sector
    currency := currency
    shares := shares
    cost_price := cost_price
    current_price := current_price
    prev_close := prev_close
    daily_change := daily_change
    daily_change_pct := daily_change_pct
    market_value := market_value
    cost_total := cost_total
    pnl := pnl
    pnl_pct := pnl_pct
    market_value_jpy := market_value_jpy
    cost_total_jpy := cost_total_jpy
    pnl_jpy := pnl_jpy
    dividend_yield := info.dividend_yield
    buy_date := item.buy_date }

/-- `calculate_holdings(portfolio, exchange_rate)`: one row per position,
empty output for the empty portfolio. -/
def calculate_holdings (env : MarketEnv) (portfolio : List Position)
    (exchange_rate : ℚ) : List HoldingRow :=
  portfolio.map (holdingRow env exchange_rate)

/-- The quote environment of test Scenario A: AAPL trades at 165 with a
previous close of 160; no fallback history is needed. -/
def scenarioEnvA : MarketEnv :=
  { info := fun t => ⟨t, "Technology", 0, 165, 160⟩
    hist := fun _ => []
    fx := 150 }

/-- The single Scenario-A position: 10 AAPL shares at cost 150. -/
def scenarioPosA : Position := ⟨"AAPL", 10, 150, ""⟩

end StockPortfolio

namespace StockPortfolio

/-- C1: every holding row computed by `calculate_holdings` satisfies
marketValue = price × shares, costTotal = costBasisPerShare × shares,
pnl = marketValue − costTotal and pnlPct = pnl/costTotal×100 with the
guarded value 0 when costTotal = 0; and Scenario A (10 AAPL shares at
cost 150, quote price 165) yields marketValue 1650, pnl 150, pnlPct 10. -/
theorem C1_holdings_valuation :
    (∀ (env : MarketEnv) (exchange_rate : ℚ) (portfolio : List Position)
        (row : HoldingRow), row ∈ calculate_holdings env portfolio exchange_rate →
      row.market_value = row.current_price * row.shares ∧
      row.cost_total = row.cost_price * row.shares ∧
      row.pnl = row.market_value - row.cost_total ∧
      row.pnl_pct = if row.cost_total ≠ 0 then row.pnl / row.cost_total * 100 else 0) ∧
    ((calculate_holdings scenarioEnvA [scenarioPosA] 150).map
        (fun r => (r.market_value, r.pnl, r.pnl_pct)) = [(1650, 150, 10)]) := by
  constructor
  · intro env exchange_rate portfolio row hrow
    rcases List.mem_map.mp hrow with ⟨item, _, rfl⟩
    exact ⟨rfl, rfl, rfl, rfl⟩
  · simp only [calculate_holdings, holdingRow, scenarioEnvA, scenarioPosA,
      isJpyTicker, List.map]
    norm_num

/-- C1 witness: the universal part of `C1_holdings_valuation`, applied to the
concrete Scenario-A row. -/
theorem C1_holdings_valuation_witness :
    (holdingRow scenarioEnvA 150 scenarioPosA).market_value =
        (holdingRow scenarioEnvA 150 scenarioPosA).current_price *
          (holdingRow scenarioEnvA 150 scenarioPosA).shares ∧
      (holdingRow scenarioEnvA 150 scenarioPosA).cost_total =
        (holdingRow scenarioEnvA 150 scenarioPosA).cost_price *
          (holdingRow scenarioEnvA 150 scenarioPosA).shares ∧
      (holdingRow scenarioEnvA 150 scenarioPosA).pnl =
        (holdingRow scenarioEnvA 150 scenarioPosA).market_value -
          (holdingRow scenarioEnvA 150 scenarioPosA).cost_total ∧
      (holdingRow scenarioEnvA 150 scenarioPosA).pnl_pct =
        if (holdingRow scenarioEnvA 150 scenarioPosA).cost_total ≠ 0 then
          (holdingRow scenarioEnvA 150 scenarioPosA).pnl /
              (holdingRow scenarioEnvA 150 scenarioPosA).cost_total * 100
        else 0 :=
  C1_holdings_valuation.1 scenarioEnvA 150 [scenarioPosA]
    (holdingRow scenarioEnvA 150 scenarioPosA) (by simp [calculate_holdings])

end StockPortfolio

namespace StockPortfolio

/-! ## Risk metrics (`calculate_risk_metrics`, app.py lines 1068–1119)

The module constants `TRADING_DAYS = 252` and `RISK_FREE_RATE = 0.005`
(app.py lines 33–34). -/

def TRADING_DAYS : ℕ := 252

def RISK_FREE_RATE : ℚ := 5 / 1000

/-- `Series.mean()`. -/
def mean (xs : List ℚ) : ℚ := xs.sum / xs.length

/-- The square of `Series.std()` (pandas sample variance, `ddof=1`).
For a singleton series pandas yields NaN where the `ℚ` convention
`x / 0 = 0` yields 0; every use below is on a series of length ≥ 10 or
inside a field no claim touches. -/
def sampleVar (xs : List ℚ) : ℚ :=
  (xs.map (fun x => (x - mean xs) ^ 2)).sum / ((xs.length : ℚ) - 1)

/-- `Series.std()` — the square root lives in `ℝ`, hence is not executable. -/
noncomputable def sampleStd (xs : List ℚ) : ℝ := Real.sqrt ((sampleVar xs : ℚ) : ℝ)

/-- Ascending sort, as `np.percentile` performs internally. -/
def sortedAsc (xs : List ℚ) : List ℚ := xs.mergeSort

/-- `np.percentile(xs, q)` with the default linear interpolation:
with `h = q/100 × (n−1)`, the value is
`sorted[⌊h⌋] + (h − ⌊h⌋) × (sorted[⌊h⌋+1] − sorted[⌊h⌋])`
(upper index clamped to `n−1`). -/
def percentile (xs : List ℚ) (q : ℚ) : ℚ :=
  let s := sortedAsc xs
  let n := s.length
  let h := q * ((n : ℚ) - 1) / 100
  let i := (Int.floor h).toNat
  let lo := s.getD i 0
  let hi := s.getD (min (i + 1) (n - 1)) 0
  lo + (h - (i : ℚ)) * (hi - lo)

/-- `(1 + returns).cumprod()`. -/
def cumprodOnePlus (xs : List ℚ) : List ℚ :=
  (xs.scanl (fun a r => a * (1 + r)) 1).tail

/-- Helper for the running maximum. -/
def runningMaxAux (acc : ℚ) : List ℚ → List ℚ
  | [] => []
  | x :: xs => max acc x :: runningMaxAux (max acc x) xs

/-- `Series.cummax()`. -/
def runningMax : List ℚ → List ℚ
  | [] => []
  | x :: xs => x :: runningMaxAux x xs

/-- `Series.min()` of a nonempty series (0 on the empty one). -/
def listMin : List ℚ → ℚ
  | [] => 0
  | x :: xs => xs.foldl min x

/-- The dict returned by `calculate_risk_metrics`.  The degenerate branch
has a `"beta"` key (always 0) which the main branch does not produce, so
the field is optional. -/
structure RiskMetricsOut where
  sharpe_ratio : ℝ
  sortino_ratio : ℝ
  max_drawdown : ℝ
  volatility : ℝ
  var_95 : ℝ
  var_99 : ℝ
  beta : Option ℝ
  total_return : ℝ
  cagr : ℝ

/-- The all-zero record returned when fewer than 10 observations are
available. -/
def zeroRiskMetrics : RiskMetricsOut :=
  { sharpe_ratio := 0, sortino_ratio := 0, max_drawdown := 0, volatility := 0,
    var_95 := 0, var_99 := 0, beta := some 0, total_return := 0, cagr := 0 }

/-- `calculate_risk_metrics(returns)`. -/
noncomputable def calculate_risk_metrics (returns : List ℚ) : RiskMetricsOut :=
  if returns.length < 10 then zeroRiskMetrics
  else
    let vol : ℝ := sampleStd returns * Real.sqrt TRADING_DAYS
    let excess : ℝ := (mean returns : ℝ) * TRADING_DAYS - (RISK_FREE_RATE : ℝ)
    let sharpe := if vol ≠ 0 then excess / vol else 0
    let downside := returns.filter (fun r => decide (r < 0))
    let downside_std : ℝ :=
      if 0 < downside.length then sampleStd downside * Real.sqrt TRADING_DAYS
      else 0
    let sortino := if downside_std ≠ 0 then excess / downside_std else 0
    let cum := cumprodOnePlus returns
    let peak := runningMax cum
    let drawdown := List.zipWith (fun c p => (c - p) / p) cum peak
    let max_dd : ℝ := ((listMin drawdown : ℚ) : ℝ)
    let total_ret : ℚ := (returns.map (fun r => 1 + r)).prod - 1
    let n_days := returns.length
    let cagr : ℝ :=
      if 0 < n_days ∧ 0 < 1 + total_ret then
        ((1 + total_ret : ℚ) : ℝ) ^ ((TRADING_DAYS : ℝ) / (n_days : ℝ)) - 1
      else 0
    { sharpe_ratio := sharpe, sortino_ratio := sortino, max_drawdown := max_dd,
      volatility := vol, var_95 := ((percentile returns 5 : ℚ) : ℝ),
      var_99 := ((percentile returns 1 : ℚ) : ℝ), beta := none,
      total_return := (total_ret : ℝ), cagr := cagr }

/-- A 10-observation series used to instantiate the risk-metric theorems. -/
def tenReturns : List ℚ := List.replicate 10 0

end StockPortfolio

namespace StockPortfolio

/-- C2: on any series of at least 10 observations the engine returns
exactly: annualized volatility `std(returns)·√252`; Sharpe
`(mean·252 − r_f)/vol`, with 0 when the volatility is 0; and
var95/var99 equal to the 5th/1st percentile of the raw returns. -/
theorem C2_risk_metric_formulas (returns : List ℚ)
    (h : 10 ≤ returns.length) :
    (calculate_risk_metrics returns).volatility =
        sampleStd returns * Real.sqrt TRADING_DAYS ∧
      (calculate_risk_metrics returns).sharpe_ratio =
        (if sampleStd returns * Real.sqrt TRADING_DAYS = 0 then 0
         else ((mean returns : ℝ) * TRADING_DAYS - (RISK_FREE_RATE : ℝ)) /
           (sampleStd returns * Real.sqrt TRADING_DAYS)) ∧
      (calculate_risk_metrics returns).var_95 = ((percentile returns 5 : ℚ) : ℝ) ∧
      (calculate_risk_metrics returns).var_99 = ((percentile returns 1 : ℚ) : ℝ) := by
  have hn : ¬ returns.length < 10 := not_lt.mpr h
  refine ⟨?_, ?_, ?_, ?_⟩ <;>
    simp only [calculate_risk_metrics, if_neg hn, ite_not]

/-- C2 witness: the formulas instantiated on a concrete 10-observation
series. -/
theorem C2_risk_metric_formulas_witness :
    (calculate_risk_metrics tenReturns).volatility =
        sampleStd tenReturns * Real.sqrt TRADING_DAYS ∧
      (calculate_risk_metrics tenReturns).sharpe_ratio =
        (if sampleStd tenReturns * Real.sqrt TRADING_DAYS = 0 then 0
         else ((mean tenReturns : ℝ) * TRADING_DAYS - (RISK_FREE_RATE : ℝ)) /
           (sampleStd tenReturns * Real.sqrt TRADING_DAYS)) ∧
      (calculate_risk_metrics tenReturns).var_95 =
        ((percentile tenReturns 5 : ℚ) : ℝ) ∧
      (calculate_risk_metrics tenReturns).var_99 =
        ((percentile tenReturns 1 : ℚ) : ℝ) :=
  C2_risk_metric_formulas tenReturns (by decide)

/-- C8: on any series of fewer than 10 observations (the empty one
included) the engine returns the all-zero record — sharpe, sortino,
max drawdown, volatility, VaR95/99, total return, CAGR all 0 and the
`"beta"` key present with value 0 — rather than raising. -/
theorem C8_risk_metrics_degenerate (returns : List ℚ)
    (h : returns.length < 10) :
    calculate_risk_metrics returns = zeroRiskMetrics := by
  simp [calculate_risk_metrics, if_pos h]

/-- C8 witness: the empty series yields the all-zero record. -/
theorem C8_risk_metrics_degenerate_witness :
    calculate_risk_metrics [] = zeroRiskMetrics :=
  C8_risk_metrics_degenerate [] (by decide)

end StockPortfolio

namespace StockPortfolio

/-! ## Monte-Carlo simulation (`run_monte_carlo`, app.py lines 1165–1189,
and the percentile paths of `create_monte_carlo_chart`, lines 1215–1217)

The source draws `daily_returns = np.random.normal(mu, sigma, size)` where
`mu`/`sigma` are the sample mean/std of the historical returns; the drawn
matrix is the only randomness, so it enters the embedding as the explicit
parameter `draws : ℕ → ℕ → ℚ` (`draws i t` is `daily_returns[i, t]`). -/

/-- The value of simulated path `i` after `t` steps:
`price_paths[i, 0] = initial_value` and
`price_paths[i, t] = price_paths[i, t-1] * (1 + daily_returns[i, t-1])`. -/
def mcPath (draws : ℕ → ℕ → ℚ) (initial_value : ℚ) (i : ℕ) : ℕ → ℚ
  | 0 => initial_value
  | t + 1 => mcPath draws initial_value i t * (1 + draws i t)

/-- `run_monte_carlo(returns, initial_value, years, n_simulations)`:
the `n_simulations × (TRADING_DAYS*years + 1)` path matrix, or the empty
result when the return series is empty or the initial value non-positive. -/
def run_monte_carlo (draws : ℕ → ℕ → ℚ) (returns : List ℚ)
    (initial_value : ℚ) (years : ℕ) (n_simulations : ℕ) : List (List ℚ) :=
  if returns = [] ∨ initial_value ≤ 0 then []
  else
    let total_days := TRADING_DAYS * years
    (List.range n_simulations).map (fun i =>
      (List.range (total_days + 1)).map (mcPath draws initial_value i))

/-- Column `t` of the path matrix (`price_paths[:, t]`). -/
def pathColumn (paths : List (List ℚ)) (t : ℕ) : List ℚ :=
  paths.map (fun p => p.getD t 0)

/-- `np.percentile(price_paths, q, axis=0)` at step `t`. -/
def percentilePath (paths : List (List ℚ)) (q : ℚ) (t : ℕ) : ℚ :=
  percentile (pathColumn paths t) q

/-! ### Percentile facts -/

theorem mapRange_getD {α : Type} (f : ℕ → α) (n t : ℕ) (d : α) (h : t < n) :
    ((List.range n).map f).getD t d = f t := by
  rw [List.getD_eq_getElem?_getD]
  simp [List.getElem?_map, List.getElem?_range h]

theorem sortedAsc_sorted (xs : List ℚ) : List.Sorted (· ≤ ·) (sortedAsc xs) :=
  List.sorted_mergeSort' xs

theorem sortedAsc_length (xs : List ℚ) : (sortedAsc xs).length = xs.length :=
  (List.mergeSort_perm xs _).length_eq

theorem sorted_getD_mono {s : List ℚ} (hs : List.Sorted (· ≤ ·) s)
    {i j : ℕ} (hij : i ≤ j) (hj : j < s.length) :
    s.getD i 0 ≤ s.getD j 0 := by
  have hi : i < s.length := lt_of_le_of_lt hij hj
  rw [List.getD_eq_getElem?_getD, List.getD_eq_getElem?_getD,
    List.getElem?_eq_getElem hi, List.getElem?_eq_getElem hj]
  exact hs.rel_get_of_le (a := ⟨i, hi⟩) (b := ⟨j, hj⟩) hij

/-- The linear-interpolation core of `np.percentile` on a sorted list is
monotone, stated over free bucket indices. -/
theorem interp_core_mono (s : List ℚ) (hsorted : List.Sorted (· ≤ ·) s)
    (i i' : ℕ) (h h' : ℚ)
    (_hiq : (i : ℚ) ≤ h) (hiq1 : h < (i : ℚ) + 1) (hiq' : (i' : ℚ) ≤ h')
    (hii : i ≤ i') (hhle : h ≤ h') (hi'lt : i' < s.length) :
    s.getD i 0 + (h - (i : ℚ)) *
        (s.getD (min (i + 1) (s.length - 1)) 0 - s.getD i 0) ≤
      s.getD i' 0 + (h' - (i' : ℚ)) *
        (s.getD (min (i' + 1) (s.length - 1)) 0 - s.getD i' 0) := by
  have hilt : i < s.length := lt_of_le_of_lt hii hi'lt
  have hup : min (i + 1) (s.length - 1) < s.length := by omega
  have hup' : min (i' + 1) (s.length - 1) < s.length := by omega
  have hlohi : s.getD i 0 ≤ s.getD (min (i + 1) (s.length - 1)) 0 :=
    sorted_getD_mono hsorted (by omega) hup
  have hlohi' : s.getD i' 0 ≤ s.getD (min (i' + 1) (s.length - 1)) 0 :=
    sorted_getD_mono hsorted (by omega) hup'
  rcases eq_or_lt_of_le hii with heq | hlt
  · -- same bucket: the same segment with a nonnegative slope
    subst heq
    have hslope : (h - (i : ℚ)) * (s.getD (min (i + 1) (s.length - 1)) 0 - s.getD i 0) ≤
        (h' - (i : ℚ)) * (s.getD (min (i + 1) (s.length - 1)) 0 - s.getD i 0) :=
      mul_le_mul_of_nonneg_right (by linarith) (by linarith)
    linarith
  · -- the left value is below its segment's right endpoint, which is below
    -- the right value's left endpoint
    have hstep : s.getD (min (i + 1) (s.length - 1)) 0 ≤ s.getD i' 0 :=
      sorted_getD_mono hsorted (by omega) hi'lt
    have hvhi : s.getD i 0 + (h - (i : ℚ)) *
        (s.getD (min (i + 1) (s.length - 1)) 0 - s.getD i 0) ≤
        s.getD (min (i + 1) (s.length - 1)) 0 := by
      have h1 : h - (i : ℚ) ≤ 1 := by linarith
      nlinarith
    have hvlo : s.getD i' 0 ≤ s.getD i' 0 + (h' - (i' : ℚ)) *
        (s.getD (min (i' + 1) (s.length - 1)) 0 - s.getD i' 0) := by
      have : 0 ≤ (h' - (i' : ℚ)) *
          (s.getD (min (i' + 1) (s.length - 1)) 0 - s.getD i' 0) :=
        mul_nonneg (by linarith) (by linarith)
      linarith
    linarith

/-- `np.percentile` with linear interpolation is monotone in the
percentile rank. -/
theorem percentile_mono (xs : List ℚ) (hne : xs ≠ []) {q q' : ℚ}
    (h0 : 0 ≤ q) (hqq : q ≤ q') (h100 : q' ≤ 100) :
    percentile xs q ≤ percentile xs q' := by
  have hsorted := sortedAsc_sorted xs
  have hnpos : 1 ≤ (sortedAsc xs).length := by
    rw [sortedAsc_length]
    exact List.length_pos.mpr hne
  have hn1 : (((sortedAsc xs).length : ℚ) - 1) =
      (((sortedAsc xs).length - 1 : ℕ) : ℚ) := by
    push_cast [Nat.cast_sub hnpos]
    ring
  have hcoef : (0 : ℚ) ≤ (((sortedAsc xs).length : ℚ) - 1) := by
    have : (1 : ℚ) ≤ ((sortedAsc xs).length : ℚ) := by exact_mod_cast hnpos
    linarith
  have hh0 : 0 ≤ q * (((sortedAsc xs).length : ℚ) - 1) / 100 := by positivity
  have hhle : q * (((sortedAsc xs).length : ℚ) - 1) / 100 ≤
      q' * (((sortedAsc xs).length : ℚ) - 1) / 100 := by
    apply div_le_div_of_nonneg_right _ (by norm_num)
    exact mul_le_mul_of_nonneg_right hqq hcoef
  have hh0' : 0 ≤ q' * (((sortedAsc xs).length : ℚ) - 1) / 100 :=
    le_trans hh0 hhle
  have hhtop : q' * (((sortedAsc xs).length : ℚ) - 1) / 100 ≤
      (((sortedAsc xs).length : ℚ) - 1) := by
    rw [div_le_iff₀ (by norm_num : (0:ℚ) < 100)]
    calc q' * (((sortedAsc xs).length : ℚ) - 1) ≤
          100 * (((sortedAsc xs).length : ℚ) - 1) :=
          mul_le_mul_of_nonneg_right h100 hcoef
      _ = (((sortedAsc xs).length : ℚ) - 1) * 100 := by ring
  have floorFacts : ∀ z : ℚ, 0 ≤ z →
      ((Int.floor z).toNat : ℚ) ≤ z ∧ z < ((Int.floor z).toNat : ℚ) + 1 := by
    intro z hz
    have hfl0 : (0 : ℤ) ≤ Int.floor z := Int.le_floor.mpr (by exact_mod_cast hz)
    have hcastz : (((Int.floor z).toNat : ℤ)) = Int.floor z :=
      Int.toNat_of_nonneg hfl0
    constructor
    · have := Int.floor_le z
      rw [← hcastz] at this
      exact_mod_cast this
    · have := Int.lt_floor_add_one z
      rw [← hcastz] at this
      exact_mod_cast this
  obtain ⟨hf1, hf2⟩ := floorFacts _ hh0
  obtain ⟨hf1', hf2'⟩ := floorFacts _ hh0'
  have hii : (Int.floor (q * (((sortedAsc xs).length : ℚ) - 1) / 100)).toNat ≤
      (Int.floor (q' * (((sortedAsc xs).length : ℚ) - 1) / 100)).toNat := by
    have := Int.floor_le_floor hhle
    omega
  have hi'lt : (Int.floor (q' * (((sortedAsc xs).length : ℚ) - 1) / 100)).toNat <
      (sortedAsc xs).length := by
    have h1 := Int.floor_le_floor hhtop
    have h2 : Int.floor ((((sortedAsc xs).length : ℚ)) - 1) =
        (((sortedAsc xs).length - 1 : ℕ) : ℤ) := by
      rw [hn1, Int.floor_natCast]
    rw [h2] at h1
    omega
  exact interp_core_mono (sortedAsc xs) hsorted _ _ _ _ hf1 hf2 hf1' hii hhle hi'lt

end StockPortfolio

namespace StockPortfolio

/-- C3: (a) for an empty return series or non-positive initial value the
simulator returns the empty result; (b) otherwise every simulated path
starts exactly at the initial value and obeys
`path[t] = path[t-1] * (1 + drawnReturn[t])`; (c) the derived percentile
paths satisfy `p10[t] ≤ p50[t] ≤ p90[t]` at every step of any nonempty
path matrix. -/
theorem C3_monte_carlo :
    (∀ (draws : ℕ → ℕ → ℚ) (returns : List ℚ) (initial_value : ℚ)
        (years n_simulations : ℕ),
      (returns = [] ∨ initial_value ≤ 0) →
        run_monte_carlo draws returns initial_value years n_simulations = []) ∧
    (∀ (draws : ℕ → ℕ → ℚ) (returns : List ℚ) (initial_value : ℚ)
        (years n_simulations i : ℕ),
      returns ≠ [] → 0 < initial_value → i < n_simulations →
        (((run_monte_carlo draws returns initial_value years
              n_simulations).getD i []).getD 0 0 = initial_value ∧
          ∀ t, 1 ≤ t → t ≤ TRADING_DAYS * years →
            ((run_monte_carlo draws returns initial_value years
                n_simulations).getD i []).getD t 0 =
              ((run_monte_carlo draws returns initial_value years
                  n_simulations).getD i []).getD (t - 1) 0 *
                (1 + draws i (t - 1)))) ∧
    (∀ (paths : List (List ℚ)), paths ≠ [] → ∀ t : ℕ,
      percentilePath paths 10 t ≤ percentilePath paths 50 t ∧
        percentilePath paths 50 t ≤ percentilePath paths 90 t) := by
  refine ⟨?_, ?_, ?_⟩
  · intro draws returns initial_value years n_simulations hdeg
    simp [run_monte_carlo, hdeg]
  · intro draws returns initial_value years n_simulations i hret hinit hi
    have hcond : ¬ (returns = [] ∨ initial_value ≤ 0) := by
      push_neg
      exact ⟨hret, hinit⟩
    have hrow : (run_monte_carlo draws returns initial_value years
        n_simulations).getD i [] =
        (List.range (TRADING_DAYS * years + 1)).map
          (mcPath draws initial_value i) := by
      rw [run_monte_carlo, if_neg hcond]
      exact mapRange_getD _ _ _ _ hi
    rw [hrow]
    constructor
    · rw [mapRange_getD _ _ _ _ (by omega)]
      simp [mcPath]
    · intro t ht1 htd
      obtain ⟨u, rfl⟩ : ∃ u, t = u + 1 := ⟨t - 1, by omega⟩
      rw [mapRange_getD _ _ _ _ (by omega), mapRange_getD _ _ _ _ (by omega)]
      simp [mcPath]
  · intro paths hne t
    have hcol : pathColumn paths t ≠ [] := by
      simp [pathColumn, hne]
    exact ⟨percentile_mono _ hcol (by norm_num) (by norm_num) (by norm_num),
      percentile_mono _ hcol (by norm_num) (by norm_num) (by norm_num)⟩

/-- C3 witness: the degenerate, recurrence and percentile-ordering parts
instantiated on concrete inputs. -/
theorem C3_monte_carlo_witness :
    run_monte_carlo (fun _ _ => 0) [] 1 1 1 = [] ∧
      ((run_monte_carlo (fun _ _ => (1 : ℚ) / 100) [1/100] 100 0
          1).getD 0 []).getD 0 0 = 100 ∧
      (percentilePath [[100]] 10 0 ≤ percentilePath [[100]] 50 0 ∧
        percentilePath [[100]] 50 0 ≤ percentilePath [[100]] 90 0) :=
  ⟨C3_monte_carlo.1 (fun _ _ => 0) [] 1 1 1 (Or.inl rfl),
    (C3_monte_carlo.2.1 (fun _ _ => (1 : ℚ) / 100) [1/100] 100 0 1 0
      (by decide) (by norm_num) (by decide)).1,
    C3_monte_carlo.2.2 [[100]] (by decide) 0⟩

end StockPortfolio

namespace StockPortfolio

/-! ## Python dicts keyed by ticker

`d[k] = v` on a Python dict replaces the value of an existing key in
place (keeping its position) and appends a new key at the end;
`calculate_portfolio_returns` (app.py lines 1050–1051),
`calculate_rebalance_actions` (line 1903) and
`aggregate_dividend_by_month` (line 2062) all store per-ticker data this
way. -/

/-- Python `d[k] = v`. -/
def dictInsert {α : Type} (k : String) (v : α) :
    List (String × α) → List (String × α)
  | [] => [(k, v)]
  | (k', v') :: rest =>
    if k' = k then (k', v) :: rest else (k', v') :: dictInsert k v rest

/-- Python `d.get(k)`. -/
def dictGet {α : Type} (k : String) (d : List (String × α)) : Option α :=
  (d.find? (fun p => decide (p.1 = k))).map Prod.snd

/-! ## Blended portfolio returns — the weights dict
(`calculate_portfolio_returns`, app.py lines 1024–1065) -/

/-- The environment of `calculate_portfolio_returns`: period price
history, quote info and the FX rate. -/
structure ReturnsEnv where
  info : String → StockInfo
  histP : String → List ℚ
  fx : ℚ

/-- `Series.pct_change().dropna()`. -/
def pctChange (closes : List ℚ) : List ℚ :=
  List.zipWith (fun prev cur => (cur - prev) / prev) closes closes.tail

/-- The accumulation loop of `calculate_portfolio_returns` (lines
1033–1051): per ticker, the return series and the current
reporting-currency value, both stored by dict assignment. -/
def returnsAndWeights (env : ReturnsEnv) (portfolio : List Position) :
    List (String × List ℚ) × List (String × ℚ) :=
  portfolio.foldl
    (fun acc item =>
      let hist := env.histP item.ticker
      if hist = [] ∨ hist.length < 2 then acc
      else
        let returns := pctChange hist
        let info := env.info item.ticker
        let current_price :=
          if info.current_price = 0 ∧ hist ≠ [] then hist.getLast?.getD 0
          else info.current_price
        let value0 := current_price * item.shares
        let value :=
          if isJpyTicker item.ticker then value0 else value0 * env.fx
        (dictInsert item.ticker returns acc.1,
          dictInsert item.ticker value acc.2))
    ([], [])

/-! ## Rebalance current values
(`calculate_rebalance_actions`, app.py lines 1885–1904) -/

/-- The first loop of `calculate_rebalance_actions`: the per-ticker
`current_values` dict (assignment, line 1903) and the running
`total_value` sum (line 1904). -/
def rebalanceCurrentValues (env : MarketEnv) (portfolio : List Position)
    (exchange_rate : ℚ) : List (String × ℚ) × ℚ :=
  portfolio.foldl
    (fun acc item =>
      let info := env.info item.ticker
      let hist := env.hist item.ticker
      let current_price :=
        if info.current_price = 0 ∧ hist ≠ [] then hist.getLast?.getD 0
        else info.current_price
      let value0 := current_price * item.shares
      let value :=
        if isJpyTicker item.ticker then value0 else value0 * exchange_rate
      (dictInsert item.ticker value acc.1, acc.2 + value))
    ([], 0)

/-- A portfolio holding the same ticker twice: 1 share and 2 shares of
"AAA" (a non-JPY ticker). -/
def dupPortfolio : List Position := [⟨"AAA", 1, 100, ""⟩, ⟨"AAA", 2, 100, ""⟩]

/-- Quotes for the duplicate-ticker example: "AAA" trades at 100. -/
def dupEnv : MarketEnv :=
  { info := fun t => ⟨t, "Energy", 0, 100, 100⟩
    hist := fun _ => []
    fx := 1 }

/-- The same quotes for the blended-returns environment, with a
two-point price history so the ticker has usable history. -/
def dupReturnsEnv : ReturnsEnv :=
  { info := fun t => ⟨t, "Energy", 0, 100, 100⟩
    histP := fun _ => [100, 100]
    fx := 1 }

end StockPortfolio

namespace StockPortfolio

/-- C5: with two positions on the same ticker ("AAA", 1 share and 2
shares, price 100, FX 1) the ticker-keyed stores do NOT aggregate: the
rebalance `current_values` dict and the blended-return `weights` dict
keep only the last position's value 200 (the claimed aggregation would
give 300), while the rebalance `total_value` still sums all positions
to 300 — the two are inconsistent. -/
theorem C5_duplicate_ticker_overwrite :
    (rebalanceCurrentValues dupEnv dupPortfolio 1).1 = [("AAA", 200)] ∧
      (rebalanceCurrentValues dupEnv dupPortfolio 1).2 = 300 ∧
      (returnsAndWeights dupReturnsEnv dupPortfolio).2 = [("AAA", 200)] ∧
      (200 : ℚ) ≠ 100 * 1 + 100 * 2 := by
  refine ⟨?_, ?_, ?_, by norm_num⟩ <;>
    norm_num [rebalanceCurrentValues, returnsAndWeights, dupEnv,
      dupReturnsEnv, dupPortfolio, dictInsert, isJpyTicker, pctChange]
  simp +decide

end StockPortfolio

namespace StockPortfolio

/-! ## Efficient-frontier post-processing
(`generate_efficient_frontier_data`, app.py lines 1686–1747)

The SLSQP solver is an external collaborator (`scipy.optimize.minimize`);
its outcome `OptimizeResult(x=…, success=…)` enters the embedding as a
parameter.  The source reads only `result.x` (lines 1700, 1715) — the
`success` flag is never consulted and the returned dict carries no
failure indication. -/

/-- The fields of `scipy.optimize.OptimizeResult` the caller could
consult. -/
structure OptimizeResult where
  x : List ℚ
  success : Bool

/-- One `{weights, return, volatility}` entry of the frontier dict. -/
structure FrontierEntry where
  weights : List ℚ
  ret : ℝ
  vol : ℝ

/-- The dict returned by `generate_efficient_frontier_data` (lines
1725–1747); the random cloud is kept abstract as the list of sampled
weight vectors with their performance. -/
structure FrontierData where
  tickers : List String
  random_portfolios : List FrontierEntry
  current_portfolio : FrontierEntry
  min_variance : FrontierEntry
  max_sharpe : FrontierEntry

/-- `calculate_portfolio_performance(weights, mean_returns, cov_matrix)`
(app.py lines 1542–1557): annualized return `Σ wᵢμᵢ` and volatility
`√(wᵀΣw)`. -/
noncomputable def portfolioPerformance (weights meanR : List ℚ)
    (cov : List (List ℚ)) : ℝ × ℝ :=
  let ret := (List.zipWith (· * ·) weights meanR).sum
  let var :=
    (List.zipWith (fun w row => w * (List.zipWith (· * ·) row weights).sum)
      weights cov).sum
  ((ret : ℝ), Real.sqrt ((var : ℚ) : ℝ))

/-- The tail of `generate_efficient_frontier_data` after the two SLSQP
calls (lines 1700–1747): both optimal portfolios are built from
`result.x` unconditionally. -/
noncomputable def frontierFromSolver (tickers : List String)
    (meanR : List ℚ) (cov : List (List ℚ)) (cloud : List FrontierEntry)
    (current_weights : List ℚ)
    (min_var_result max_sharpe_result : OptimizeResult) : FrontierData :=
  let mv := portfolioPerformance min_var_result.x meanR cov
  let ms := portfolioPerformance max_sharpe_result.x meanR cov
  let cur := portfolioPerformance current_weights meanR cov
  { tickers := tickers
    random_portfolios := cloud
    current_portfolio := ⟨current_weights, cur.1, cur.2⟩
    min_variance := ⟨min_var_result.x, mv.1, mv.2⟩
    max_sharpe := ⟨max_sharpe_result.x, ms.1, ms.2⟩ }

/-- C6 (violated by the code): the frontier output is identical whether
the solver converged or not — the final iterate is returned for the
minimum-variance and maximum-Sharpe portfolios and no
`OptimizationFailure` indication exists in the result, so
non-convergence cannot be surfaced to the caller. -/
theorem C6_unconverged_result_unflagged :
    (∀ (tickers : List String) (meanR : List ℚ) (cov : List (List ℚ))
        (cloud : List FrontierEntry) (cw x y : List ℚ),
      frontierFromSolver tickers meanR cov cloud cw ⟨x, false⟩ ⟨y, false⟩ =
        frontierFromSolver tickers meanR cov cloud cw ⟨x, true⟩ ⟨y, true⟩) ∧
      (frontierFromSolver ["A", "B"] [0, 0] [[0, 0], [0, 0]] []
          [1/2, 1/2] ⟨[2/5, 3/5], false⟩ ⟨[1/4, 3/4], false⟩).min_variance.weights
          = [2/5, 3/5] ∧
      (frontierFromSolver ["A", "B"] [0, 0] [[0, 0], [0, 0]] []
          [1/2, 1/2] ⟨[2/5, 3/5], false⟩ ⟨[1/4, 3/4], false⟩).max_sharpe.weights
          = [1/4, 3/4] :=
  ⟨fun _ _ _ _ _ _ _ => rfl, rfl, rfl⟩

end StockPortfolio

namespace StockPortfolio

/-! ## Dividend aggregation
(`aggregate_dividend_by_month`, app.py lines 2026–2071)

Dates are modelled timezone-naive as `(year, month, day)`; the monthly
resample keys by `(year, month)`. -/

/-- The dividend-history collaborator: `fetch_dividend_history(t)` as a
list of (date, per-share amount), plus the FX rate. -/
structure DivEnv where
  divHistory : String → List ((ℤ × ℕ × ℕ) × ℚ)
  fx : ℚ

/-- The month of a date. -/
def monthOf (d : ℤ × ℕ × ℕ) : ℤ × ℕ := (d.1, d.2.1)

/-- Add an amount into a month bucket (`resample("M").sum()` keyed by
month). -/
def addToMonth (k : ℤ × ℕ) (v : ℚ) :
    List ((ℤ × ℕ) × ℚ) → List ((ℤ × ℕ) × ℚ)
  | [] => [(k, v)]
  | (k', v') :: rest =>
    if k' = k then (k', v' + v) :: rest else (k', v') :: addToMonth k v rest

/-- `aggregate_dividend_by_month(portfolio)`: per ticker, each event's
per-share amount × shares held, × FX when the ticker is foreign,
summed per calendar month; tickers with no dividend history are
skipped. -/
def aggregate_dividend_by_month (env : DivEnv) (portfolio : List Position) :
    List (String × List ((ℤ × ℕ) × ℚ)) :=
  portfolio.foldl
    (fun acc item =>
      let div := env.divHistory item.ticker
      if div = [] then acc
      else
        let amounts := div.map (fun p => (monthOf p.1, p.2 * item.shares))
        let amounts :=
          if isJpyTicker item.ticker then amounts
          else amounts.map (fun p => (p.1, p.2 * env.fx))
        let monthly := amounts.foldl (fun m p => addToMonth p.1 p.2 m) []
        dictInsert item.ticker monthly acc)
    []

/-- Scenario D's environment: the foreign ticker "ABC" paid 1.0 per
share on 2024-05-10; the FX rate is 150. -/
def scenarioDivEnv : DivEnv :=
  { divHistory := fun t => if t = "ABC" then [((2024, 5, 10), 1)] else []
    fx := 150 }

/-- Scenario D's portfolio: 100 shares of "ABC". -/
def scenarioDivPortfolio : List Position := [⟨"ABC", 100, 10, ""⟩]

end StockPortfolio

namespace StockPortfolio

/-- C7 counterexample: on Scenario D's input (one dividend of 1.0 per
share, 100 shares, foreign ticker, FX 150) the recorded
reporting-currency income for the month is 15000, not the claimed
150. -/
theorem C7_dividend_month_counterexample :
    aggregate_dividend_by_month scenarioDivEnv scenarioDivPortfolio =
        [("ABC", [((2024, 5), 15000)])] ∧
      ((15000 : ℚ)) ≠ 150 := by
  refine ⟨?_, by norm_num⟩
  norm_num [aggregate_dividend_by_month, scenarioDivEnv, scenarioDivPortfolio,
    dictInsert, isJpyTicker, monthOf, addToMonth]
  rw [if_neg (by decide)]
  norm_num [addToMonth]

/-- C7 as amended: the reporting-currency income recorded for the month
is per-share amount × shares × FX = 1.0 × 100 × 150 = 15000. -/
theorem C7_dividend_month_amended :
    dictGet "ABC"
        (aggregate_dividend_by_month scenarioDivEnv scenarioDivPortfolio) =
      some [((2024, 5), 100 * 150)] := by
  norm_num [aggregate_dividend_by_month, scenarioDivEnv, scenarioDivPortfolio,
    dictInsert, dictGet, isJpyTicker, monthOf, addToMonth, List.find?]
  rw [if_neg (by decide)]
  norm_num [addToMonth, dictGet, List.find?]

end StockPortfolio


namespace StockPortfolio

/-! ## CSV import (`import_csv`, app.py lines 1518–1535)

`pd.read_csv` is modelled at the cell level, over character lists (the
string-splitting primitives are structural so concrete runs reduce):
the first line is the header, comma-separated; a blank cell (and a
short row's missing trailing cells) is NaN (`none`); a row with more
cells than the header is a tokenizer error, which the `except` clause
turns into `[]`.  `float(cell)` on NaN succeeds and yields NaN,
`str(NaN)` is `"nan"`; `float` of a non-numeric string raises, which
also yields `[]`. -/

/-- One imported position; `none` in a numeric field models a float
NaN. -/
structure CsvPosition where
  ticker : String
  shares : Option ℚ
  cost_price : Option ℚ
  buy_date : String
deriving Repr, DecidableEq

/-- Split a character list at a separator (the semantics of
`str.split(sep)` for a one-character separator: `"" → [""]`,
`"a," → ["a", ""]`). -/
def splitOnChar (sep : Char) : List Char → List (List Char)
  | [] => [[]]
  | c :: rest =>
    if c = sep then [] :: splitOnChar sep rest
    else
      match splitOnChar sep rest with
      | [] => [[c]]
      | g :: gs => (c :: g) :: gs

/-- Strip surrounding whitespace (`str.strip()`). -/
def trimChars (cs : List Char) : List Char :=
  ((cs.dropWhile Char.isWhitespace).reverse.dropWhile Char.isWhitespace).reverse

/-- Digit run → value. -/
def digitsToNat (ds : List Char) : ℕ :=
  ds.foldl (fun a c => a * 10 + (c.toNat - 48)) 0

/-- Negate when a leading minus sign was read. -/
def applySign (neg : Bool) (q : ℚ) : ℚ := if neg then -q else q

/-- Exponent suffix of a Python float literal: optional sign then a
nonempty digit run. -/
def parseExpPart (t : List Char) : Option ℤ :=
  let (neg, t) :=
    match t with
    | '-' :: rest => (true, rest)
    | '+' :: rest => (false, rest)
    | _ => (false, t)
  if t ≠ [] ∧ t.all Char.isDigit then
    some (if neg then -(digitsToNat t : ℤ) else (digitsToNat t : ℤ))
  else none

/-- Python `float(s)` on decimal literals: optional sign, digits with an
optional fraction and exponent, surrounding whitespace allowed;
anything else raises `ValueError` (`none`). -/
def parsePyFloat (s : List Char) : Option ℚ :=
  let t := trimChars s
  let (neg, t) :=
    match t with
    | '-' :: rest => (true, rest)
    | '+' :: rest => (false, rest)
    | _ => (false, t)
  let intPart := t.takeWhile Char.isDigit
  let rest := t.dropWhile Char.isDigit
  match rest with
  | [] => if intPart = [] then none else some (applySign neg (digitsToNat intPart))
  | '.' :: rest2 =>
    let frac := rest2.takeWhile Char.isDigit
    let rest3 := rest2.dropWhile Char.isDigit
    if intPart = [] ∧ frac = [] then none
    else
      let base : ℚ :=
        (digitsToNat intPart : ℚ) + (digitsToNat frac : ℚ) / (10 ^ frac.length)
      match rest3 with
      | [] => some (applySign neg base)
      | 'e' :: rest4 =>
        (parseExpPart rest4).map (fun e => applySign neg (base * 10 ^ e))
      | 'E' :: rest4 =>
        (parseExpPart rest4).map (fun e => applySign neg (base * 10 ^ e))
      | _ => none
  | 'e' :: rest4 =>
    if intPart = [] then none
    else (parseExpPart rest4).map
      (fun e => applySign neg ((digitsToNat intPart : ℚ) * 10 ^ e))
  | 'E' :: rest4 =>
    if intPart = [] then none
    else (parseExpPart rest4).map
      (fun e => applySign neg ((digitsToNat intPart : ℚ) * 10 ^ e))
  | _ => none

/-- A CSV field: blank means NaN. -/
def cellOfField (f : List Char) : Option (List Char) :=
  if f = [] then none else some f

/-- The tabular shape `pd.read_csv` produces from the raw text: header
plus rows of optional cells, `none` on ragged over-long rows or empty
input (both raise in pandas). -/
def parse_csv (text : String) :
    Option (List (List Char) × List (List (Option (List Char)))) :=
  match (splitOnChar '\n' text.data).filter (fun l => decide (l ≠ [])) with
  | [] => none
  | header :: rest =>
    let hfields := splitOnChar ',' header
    let rows := rest.map (splitOnChar ',')
    if rows.any (fun r => decide (hfields.length < r.length)) then none
    else
      some (hfields, rows.map (fun r =>
        (List.range hfields.length).map (fun i => cellOfField (r.getD i []))))

/-- Column position in the header. -/
def colIndex (header : List (List Char)) (c : List Char) : ℕ :=
  header.findIdx (fun h => decide (h = c))

/-- `row[c]` for a parsed row. -/
def rowCell (header : List (List Char)) (row : List (Option (List Char)))
    (c : List Char) : Option (List Char) :=
  row.getD (colIndex header c) none

/-- Python `str(…)` of a cell: NaN prints as `"nan"`. -/
def pyStrCell : Option (List Char) → List Char
  | none => ['n', 'a', 'n']
  | some s => s

/-- `float(…)` of a cell: NaN passes through, a string must parse. -/
def pyFloatCell : Option (List Char) → Option (Option ℚ)
  | none => some none
  | some s => (parsePyFloat s).map some

/-- `.strip().upper()`. -/
def stripUpper (s : List Char) : String :=
  ⟨(trimChars s).map Char.toUpper⟩

/-- One row of the import loop (app.py lines 1526–1532). -/
def importRow (header : List (List Char)) (row : List (Option (List Char))) :
    Option CsvPosition := do
  let shares ← pyFloatCell (rowCell header row "shares".data)
  let cost ← pyFloatCell (rowCell header row "cost_price".data)
  pure { ticker := stripUpper (pyStrCell (rowCell header row "ticker".data))
         shares := shares
         cost_price := cost
         buy_date :=
           if "buy_date".data ∈ header then
             ⟨pyStrCell (rowCell header row "buy_date".data)⟩
           else "" }

/-- `import_csv(csv_text)`: requires the header to contain `ticker`,
`shares` and `cost_price`; any exception while reading or converting
yields `[]`. -/
def import_csv (csv_text : String) : List CsvPosition :=
  match parse_csv csv_text with
  | none => []
  | some (header, rows) =>
    if "ticker".data ∈ header ∧ "shares".data ∈ header ∧
        "cost_price".data ∈ header then
      match rows.mapM (importRow header) with
      | none => []
      | some ps => ps
    else []

/-- A CSV whose single row has an empty `shares` cell. -/
def csvMissingShares : String := "ticker,shares,cost_price\naapl,,100"

/-- A CSV whose single row has a non-numeric `shares` cell. -/
def csvBadShares : String := "ticker,shares,cost_price\naapl,abc,100"

/-- A CSV missing the required `cost_price` column. -/
def csvNoCostColumn : String := "ticker,shares\naapl,10"

end StockPortfolio

namespace StockPortfolio

/-- C9 counterexample: a row with an empty (missing) required `shares`
value does NOT invalidate the import — the position is imported with a
NaN share count. -/
theorem C9_missing_cell_imports_counterexample :
    import_csv csvMissingShares = [⟨"AAPL", none, some 100, ""⟩] ∧
      ([(⟨"AAPL", none, some 100, ""⟩ : CsvPosition)] : List CsvPosition) ≠ [] :=
  ⟨by decide, by decide⟩

/-- C9 as amended: the whole-import invalidation is header-level — a
required column (`ticker`, `shares`, `cost_price`) absent from the
header yields no positions, as does a present value that fails numeric
conversion; but a row whose required cell is merely empty imports with
NaN in that field (`buy_date` may be absent without invalidating the
import, as the counterexample's imported row also shows). -/
theorem C9_import_validation_amended :
    (∀ (text : String) (header : List (List Char))
        (rows : List (List (Option (List Char)))),
      parse_csv text = some (header, rows) →
      ¬ ("ticker".data ∈ header ∧ "shares".data ∈ header ∧
          "cost_price".data ∈ header) →
        import_csv text = []) ∧
      import_csv csvNoCostColumn = [] ∧
      import_csv csvBadShares = [] := by
  refine ⟨?_, by decide, by decide⟩
  intro text header rows hparse hmissing
  simp only [import_csv, hparse]
  rw [if_neg hmissing]

/-- C9 witness: the header-level invalidation applied to the concrete
header missing `cost_price`. -/
theorem C9_import_validation_witness :
    import_csv csvNoCostColumn = [] :=
  C9_import_validation_amended.1 csvNoCostColumn
    ["ticker".data, "shares".data]
    [[some "aapl".data, some "10".data]] (by decide) (by decide)

end StockPortfolio

namespace StockPortfolio

/-! ## Share-link codec, part 1: urlsafe base64
(`encode_portfolio` / `decode_portfolio`, app.py lines 1471–1485)

Bytes are naturals below 256.  The encoder is
`base64.urlsafe_b64encode`; the decoder models
`base64.urlsafe_b64decode` with strict alphabet/padding checking
(CPython additionally discards foreign characters before decoding;
both decoders are total, fail on bad padding, and agree on every
encoder output, which is all the claims use). -/

theorem charToNat_ofNat (n : ℕ) (h : n.isValidChar) :
    (Char.ofNat n).toNat = n := by
  simp [Char.ofNat, h, Char.ofNatAux, Char.toNat, UInt32.toNat,
    BitVec.toNat_ofNatLt]

/-- Value 0–63 → urlsafe-alphabet character. -/
def sextetChar (n : ℕ) : Char :=
  if n < 26 then Char.ofNat (65 + n)
  else if n < 52 then Char.ofNat (97 + (n - 26))
  else if n < 62 then Char.ofNat (48 + (n - 52))
  else if n = 62 then '-' else '_'

/-- Urlsafe-alphabet character → value 0–63. -/
def charSextet (c : Char) : Option ℕ :=
  if 'A' ≤ c ∧ c ≤ 'Z' then some (c.toNat - 65)
  else if 'a' ≤ c ∧ c ≤ 'z' then some (c.toNat - 97 + 26)
  else if '0' ≤ c ∧ c ≤ '9' then some (c.toNat - 48 + 52)
  else if c = '-' then some 62
  else if c = '_' then some 63
  else none

/-- `base64.urlsafe_b64encode`: three bytes → four characters, with
`=`-padding for one or two trailing bytes. -/
def b64encode : List ℕ → List Char
  | [] => []
  | [b1] => [sextetChar (b1 / 4), sextetChar (b1 % 4 * 16), '=', '=']
  | [b1, b2] =>
    [sextetChar (b1 / 4), sextetChar (b1 % 4 * 16 + b2 / 16),
      sextetChar (b2 % 16 * 4), '=']
  | b1 :: b2 :: b3 :: rest =>
    sextetChar (b1 / 4) :: sextetChar (b1 % 4 * 16 + b2 / 16) ::
      sextetChar (b2 % 16 * 4 + b3 / 64) :: sextetChar (b3 % 64) ::
      b64encode rest

/-- `base64.urlsafe_b64decode`: four characters → three bytes, strict
about alphabet, `=`-padding and length. -/
def b64decode : List Char → Option (List ℕ)
  | [] => some []
  | c1 :: c2 :: c3 :: c4 :: rest =>
    match charSextet c1, charSextet c2 with
    | some s1, some s2 =>
      if c3 = '=' then
        if c4 = '=' ∧ rest = [] then some [s1 * 4 + s2 / 16] else none
      else
        match charSextet c3 with
        | some s3 =>
          if c4 = '=' then
            if rest = [] then some [s1 * 4 + s2 / 16, s2 % 16 * 16 + s3 / 4]
            else none
          else
            match charSextet c4 with
            | some s4 =>
              (b64decode rest).map
                (fun bs => (s1 * 4 + s2 / 16) :: (s2 % 16 * 16 + s3 / 4) ::
                  (s3 % 4 * 64 + s4) :: bs)
            | none => none
        | none => none
    | _, _ => none
  | _ => none

theorem charSextet_sextetChar : ∀ n < 64, charSextet (sextetChar n) = some n := by
  decide

theorem sextetChar_ne_pad : ∀ n < 64, sextetChar n ≠ '=' := by
  decide

/-- Decoding inverts encoding on byte lists. -/
theorem b64decode_b64encode : ∀ (bs : List ℕ), (∀ b ∈ bs, b < 256) →
    b64decode (b64encode bs) = some bs
  | [], _ => rfl
  | [b1], h => by
    have hb1 : b1 < 256 := h b1 (by simp)
    rw [b64encode, b64decode]
    simp only [charSextet_sextetChar (b1 / 4) (by omega),
      charSextet_sextetChar (b1 % 4 * 16) (by omega)]
    simp
    omega
  | [b1, b2], h => by
    have hb1 : b1 < 256 := h b1 (by simp)
    have hb2 : b2 < 256 := h b2 (by simp)
    rw [b64encode, b64decode]
    simp only [charSextet_sextetChar (b1 / 4) (by omega),
      charSextet_sextetChar (b1 % 4 * 16 + b2 / 16) (by omega),
      if_neg (sextetChar_ne_pad (b2 % 16 * 4) (by omega)),
      charSextet_sextetChar (b2 % 16 * 4) (by omega)]
    simp
    omega
  | b1 :: b2 :: b3 :: rest, h => by
    have hb1 : b1 < 256 := h b1 (by simp)
    have hb2 : b2 < 256 := h b2 (by simp)
    have hb3 : b3 < 256 := h b3 (by simp)
    have ih := b64decode_b64encode rest
      (fun b hb => h b (by simp at hb ⊢; tauto))
    rw [b64encode, b64decode]
    simp only [charSextet_sextetChar (b1 / 4) (by omega),
      charSextet_sextetChar (b1 % 4 * 16 + b2 / 16) (by omega),
      if_neg (sextetChar_ne_pad (b2 % 16 * 4 + b3 / 64) (by omega)),
      charSextet_sextetChar (b2 % 16 * 4 + b3 / 64) (by omega),
      if_neg (sextetChar_ne_pad (b3 % 64) (by omega)),
      charSextet_sextetChar (b3 % 64) (by omega), ih]
    simp
    omega

end StockPortfolio

namespace StockPortfolio

/-! ## Share-link codec, part 2: UTF-8
(`data.encode("utf-8")` / `.decode("utf-8")`, app.py lines 1474, 1481) -/

/-- UTF-8 bytes of one scalar value. -/
def utf8EncodeChar (c : Char) : List ℕ :=
  let n := c.toNat
  if n < 128 then [n]
  else if n < 2048 then [192 + n / 64, 128 + n % 64]
  else if n < 65536 then [224 + n / 4096, 128 + n / 64 % 64, 128 + n % 64]
  else [240 + n / 262144, 128 + n / 4096 % 64, 128 + n / 64 % 64, 128 + n % 64]

/-- `str.encode("utf-8")`. -/
def utf8Encode (cs : List Char) : List ℕ := (cs.map utf8EncodeChar).flatten

/-- Decode one scalar value off the front of a byte list (strict:
rejects stray continuation bytes, overlong forms, surrogates and
out-of-range values). -/
def utf8DecodeStep : List ℕ → Option (Char × List ℕ)
  | [] => none
  | b :: rest =>
    if b < 128 then some (Char.ofNat b, rest)
    else if b < 194 then none
    else if b < 224 then
      if 1 ≤ rest.length ∧ 128 ≤ rest.getD 0 0 ∧ rest.getD 0 0 < 192 then
        some (Char.ofNat ((b - 192) * 64 + (rest.getD 0 0 - 128)), rest.drop 1)
      else none
    else if b < 240 then
      let v := (b - 224) * 4096 + (rest.getD 0 0 - 128) * 64 +
        (rest.getD 1 0 - 128)
      if 2 ≤ rest.length ∧ 128 ≤ rest.getD 0 0 ∧ rest.getD 0 0 < 192 ∧
          128 ≤ rest.getD 1 0 ∧ rest.getD 1 0 < 192 ∧
          2048 ≤ v ∧ (v < 55296 ∨ 57344 ≤ v) then
        some (Char.ofNat v, rest.drop 2)
      else none
    else if b < 245 then
      let v := (b - 240) * 262144 + (rest.getD 0 0 - 128) * 4096 +
        (rest.getD 1 0 - 128) * 64 + (rest.getD 2 0 - 128)
      if 3 ≤ rest.length ∧ 128 ≤ rest.getD 0 0 ∧ rest.getD 0 0 < 192 ∧
          128 ≤ rest.getD 1 0 ∧ rest.getD 1 0 < 192 ∧
          128 ≤ rest.getD 2 0 ∧ rest.getD 2 0 < 192 ∧
          65536 ≤ v ∧ v < 1114112 then
        some (Char.ofNat v, rest.drop 3)
      else none
    else none

/-- Fueled decoding loop; each step consumes at least one byte, so the
byte count is sufficient fuel. -/
def utf8DecodeGo : ℕ → List ℕ → Option (List Char)
  | _, [] => some []
  | 0, _ :: _ => none
  | fuel + 1, b :: rest =>
    (utf8DecodeStep (b :: rest)).bind
      (fun cr => (utf8DecodeGo fuel cr.2).map (fun cs => cr.1 :: cs))

/-- `bytes.decode("utf-8")`. -/
def utf8Decode (bs : List ℕ) : Option (List Char) :=
  utf8DecodeGo bs.length bs

theorem char_toNat_valid (c : Char) :
    c.toNat < 55296 ∨ (57343 < c.toNat ∧ c.toNat < 1114112) := c.valid

theorem utf8EncodeChar_lt (c : Char) : ∀ b ∈ utf8EncodeChar c, b < 256 := by
  have hv := char_toNat_valid c
  intro b hb
  rw [utf8EncodeChar] at hb
  split_ifs at hb <;> simp at hb <;> omega

theorem utf8Encode_lt (cs : List Char) : ∀ b ∈ utf8Encode cs, b < 256 := by
  intro b hb
  rw [utf8Encode] at hb
  rcases List.mem_flatten.mp hb with ⟨l, hl, hbl⟩
  rcases List.mem_map.mp hl with ⟨c, _, rfl⟩
  exact utf8EncodeChar_lt c b hbl

theorem utf8EncodeChar_length_pos (c : Char) : 1 ≤ (utf8EncodeChar c).length := by
  rw [utf8EncodeChar]
  split_ifs <;> simp

theorem utf8DecodeStep_encodeChar (c : Char) (rest : List ℕ) :
    utf8DecodeStep (utf8EncodeChar c ++ rest) = some (c, rest) := by
  have hv := char_toNat_valid c
  have hch : Char.ofNat c.toNat = c := Char.ofNat_toNat c
  by_cases h1 : c.toNat < 128
  · rw [utf8EncodeChar]
    simp only [if_pos h1, List.cons_append, List.nil_append]
    rw [utf8DecodeStep, if_pos h1, hch]
  · by_cases h2 : c.toNat < 2048
    · rw [utf8EncodeChar]
      simp only [if_neg h1, if_pos h2, List.cons_append, List.nil_append]
      rw [utf8DecodeStep]
      simp only [List.getD_cons_zero, List.getD_cons_succ, List.length_cons,
        List.drop_succ_cons, List.drop_zero]
      rw [if_neg (by omega), if_neg (by omega), if_pos (by omega),
        if_pos (by refine ⟨by omega, by omega, by omega⟩)]
      have hvv : (192 + c.toNat / 64 - 192) * 64 + (128 + c.toNat % 64 - 128)
          = c.toNat := by omega
      rw [hvv, hch]
    · by_cases h3 : c.toNat < 65536
      · rw [utf8EncodeChar]
        simp only [if_neg h1, if_neg h2, if_pos h3, List.cons_append,
          List.nil_append]
        rw [utf8DecodeStep]
        simp only [List.getD_cons_zero, List.getD_cons_succ, List.length_cons,
          List.drop_succ_cons, List.drop_zero]
        rw [if_neg (by omega), if_neg (by omega), if_neg (by omega),
          if_pos (by omega),
          if_pos (by
            refine ⟨by omega, by omega, by omega, by omega, by omega,
              by omega, by omega⟩)]
        have hvv : (224 + c.toNat / 4096 - 224) * 4096 +
            (128 + c.toNat / 64 % 64 - 128) * 64 + (128 + c.toNat % 64 - 128)
            = c.toNat := by omega
        rw [hvv, hch]
      · rw [utf8EncodeChar]
        simp only [if_neg h1, if_neg h2, if_neg h3, List.cons_append,
          List.nil_append]
        rw [utf8DecodeStep]
        simp only [List.getD_cons_zero, List.getD_cons_succ, List.length_cons,
          List.drop_succ_cons, List.drop_zero]
        rw [if_neg (by omega), if_neg (by omega), if_neg (by omega),
          if_neg (by omega), if_pos (by omega),
          if_pos (by
            refine ⟨by omega, by omega, by omega, by omega, by omega,
              by omega, by omega, by omega, by omega⟩)]
        have hvv : (240 + c.toNat / 262144 - 240) * 262144 +
            (128 + c.toNat / 4096 % 64 - 128) * 4096 +
            (128 + c.toNat / 64 % 64 - 128) * 64 + (128 + c.toNat % 64 - 128)
            = c.toNat := by omega
        rw [hvv, hch]

theorem utf8DecodeGo_encode : ∀ (cs : List Char) (fuel : ℕ),
    (utf8Encode cs).length ≤ fuel → utf8DecodeGo fuel (utf8Encode cs) = some cs
  | [], fuel, _ => by
    cases fuel <;> rfl
  | c :: cs, fuel, hlen => by
    have hslen := utf8EncodeChar_length_pos c
    have hexp : utf8Encode (c :: cs) = utf8EncodeChar c ++ utf8Encode cs := by
      rw [utf8Encode, List.map_cons, List.flatten_cons, ← utf8Encode]
    rw [hexp] at hlen ⊢
    have hfuel : 1 ≤ fuel := by
      rw [List.length_append] at hlen
      omega
    obtain ⟨f, rfl⟩ : ∃ f, fuel = f + 1 := ⟨fuel - 1, by omega⟩
    obtain ⟨b, bs, hb⟩ : ∃ b bs, utf8EncodeChar c = b :: bs := by
      rcases hl : utf8EncodeChar c with _ | ⟨b, bs⟩
      · rw [hl] at hslen
        simp at hslen
      · exact ⟨b, bs, rfl⟩
    have ih := utf8DecodeGo_encode cs f (by
      rw [List.length_append, hb] at hlen
      simp at hlen
      omega)
    rw [hb, List.cons_append, utf8DecodeGo, ← List.cons_append, ← hb,
      utf8DecodeStep_encodeChar c, Option.some_bind, ih]
    rfl

/-- UTF-8 decoding inverts encoding. -/
theorem utf8Decode_utf8Encode (cs : List Char) :
    utf8Decode (utf8Encode cs) = some cs :=
  utf8DecodeGo_encode cs (utf8Encode cs).length le_rfl

end StockPortfolio

namespace StockPortfolio

/-! ## Share-link codec, part 3: JSON values
(`json.dumps(..., ensure_ascii=False)` / `json.loads`, app.py lines
1473, 1482)

Python serializes the numeric fields through `repr` of a float, which
is a bijection onto shortest decimal literals; a numeric value is
therefore modelled by the decimal literal itself, `m × 10^e` with
integer mantissa and exponent, serialized in the JSON-number form
`<m>e<e>` that `json.loads` parses back exactly. -/

/-- A decimal literal `m × 10^e`. -/
structure JNum where
  m : ℤ
  e : ℤ
deriving DecidableEq, Repr

/-- A JSON value; strings are carried as character lists. -/
inductive Json where
  | null : Json
  | bool (b : Bool) : Json
  | num (n : JNum) : Json
  | str (s : List Char) : Json
  | arr (elems : List Json) : Json
  | obj (fields : List (List Char × Json)) : Json
deriving Repr

/-- `0`–`9` → `'0'`–`'9'`. -/
def digitChar (d : ℕ) : Char := Char.ofNat (48 + d)

/-- Decimal rendering of a natural number. -/
def natToChars (n : ℕ) : List Char :=
  if n = 0 then ['0'] else ((Nat.digits 10 n).map digitChar).reverse

/-- Decimal rendering of an integer. -/
def intToChars (z : ℤ) : List Char :=
  if z < 0 then '-' :: natToChars z.natAbs else natToChars z.natAbs

/-- The serialized form of a decimal literal: `<m>e<e>` (a valid JSON
number, e.g. `105e-1` for 10.5). -/
def numToChars (n : JNum) : List Char := intToChars n.m ++ 'e' :: intToChars n.e

theorem digitChar_spec : ∀ d < 10, (digitChar d).isDigit = true ∧
    (digitChar d).toNat - 48 = d := by
  decide

theorem natToChars_ne_nil (n : ℕ) : natToChars n ≠ [] := by
  rw [natToChars]
  split_ifs with h
  · simp
  · simp [Nat.digits_ne_nil_iff_ne_zero, h]

theorem natToChars_all_digits (n : ℕ) :
    ∀ c ∈ natToChars n, c.isDigit = true := by
  intro c hc
  rw [natToChars] at hc
  split_ifs at hc with h
  · simp at hc
    subst hc
    decide
  · rw [List.mem_reverse] at hc
    rcases List.mem_map.mp hc with ⟨d, hd, rfl⟩
    exact (digitChar_spec d (Nat.digits_lt_base (by norm_num) hd)).1

theorem digitsToNat_append_digit (l : List Char) (c : Char) :
    digitsToNat (l ++ [c]) = digitsToNat l * 10 + (c.toNat - 48) := by
  rw [digitsToNat, digitsToNat, List.foldl_append]
  rfl

theorem digitsToNat_ofDigits : ∀ ds : List ℕ, (∀ d ∈ ds, d < 10) →
    digitsToNat ((ds.map digitChar).reverse) = Nat.ofDigits 10 ds
  | [], _ => rfl
  | d :: rest, h => by
    have ih := digitsToNat_ofDigits rest (fun x hx => h x (by simp [hx]))
    rw [List.map_cons, List.reverse_cons, digitsToNat_append_digit, ih,
      Nat.ofDigits_cons]
    have hd : (digitChar d).toNat - 48 = d :=
      (digitChar_spec d (h d (by simp))).2
    rw [hd]
    ring

theorem digitsToNat_natToChars (n : ℕ) : digitsToNat (natToChars n) = n := by
  rw [natToChars]
  split_ifs with h
  · subst h
    rfl
  · rw [digitsToNat_ofDigits (Nat.digits 10 n)
      (fun d hd => Nat.digits_lt_base (by norm_num) hd)]
    exact Nat.ofDigits_digits 10 n

end StockPortfolio

namespace StockPortfolio

/-! ### JSON string escaping (`json.dumps` with `ensure_ascii=False`) -/

/-- `0`–`15` → lowercase hex digit. -/
def hexDigitChar (n : ℕ) : Char :=
  if n < 10 then Char.ofNat (48 + n) else Char.ofNat (87 + n)

/-- Hex digit → value. -/
def hexVal (c : Char) : Option ℕ :=
  if '0' ≤ c ∧ c ≤ '9' then some (c.toNat - 48)
  else if 'a' ≤ c ∧ c ≤ 'f' then some (c.toNat - 87)
  else if 'A' ≤ c ∧ c ≤ 'F' then some (c.toNat - 55)
  else none

/-- The escape sequence `json.dumps` emits for one character: `\"`,
`\\`, the short escapes for the common control characters, `\u00XX`
for the other control characters, everything else raw. -/
def escapeChar (c : Char) : List Char :=
  if c = '"' then ['\\', '"']
  else if c = '\\' then ['\\', '\\']
  else if c = '\n' then ['\\', 'n']
  else if c = '\r' then ['\\', 'r']
  else if c = '\t' then ['\\', 't']
  else if c = '\x08' then ['\\', 'b']
  else if c = '\x0c' then ['\\', 'f']
  else if c.toNat < 32 then
    ['\\', 'u', '0', '0', hexDigitChar (c.toNat / 16),
      hexDigitChar (c.toNat % 16)]
  else [c]

/-- Escape a whole string body. -/
def escapeStr (s : List Char) : List Char := (s.map escapeChar).flatten

/-- Decode the characters after a backslash (`json.loads`; a `\uXXXX`
surrogate is rejected rather than kept as a lone surrogate, which only
narrows the accepted malformed inputs). -/
def parseEscape : List Char → Option (Char × List Char)
  | [] => none
  | e :: rest =>
    if e = '"' then some ('"', rest)
    else if e = '\\' then some ('\\', rest)
    else if e = '/' then some ('/', rest)
    else if e = 'n' then some ('\n', rest)
    else if e = 't' then some ('\t', rest)
    else if e = 'r' then some ('\r', rest)
    else if e = 'b' then some ('\x08', rest)
    else if e = 'f' then some ('\x0c', rest)
    else if e = 'u' then
      if 4 ≤ rest.length then
        (hexVal (rest.getD 0 ' ')).bind (fun a =>
          (hexVal (rest.getD 1 ' ')).bind (fun b =>
            (hexVal (rest.getD 2 ' ')).bind (fun c' =>
              (hexVal (rest.getD 3 ' ')).bind (fun d =>
                let v := a * 4096 + b * 256 + c' * 16 + d
                if v.isValidChar then some (Char.ofNat v, rest.drop 4)
                else none))))
      else none
    else none

/-- The body of a JSON string up to its closing quote, fueled by the
remaining character count. -/
def parseStringBody : ℕ → List Char → Option (List Char × List Char)
  | 0, _ => none
  | _ + 1, [] => none
  | fuel + 1, c :: rest =>
    if c = '"' then some ([], rest)
    else if c = '\\' then
      (parseEscape rest).bind (fun cr =>
        (parseStringBody fuel cr.2).map (fun sr => (cr.1 :: sr.1, sr.2)))
    else
      (parseStringBody fuel rest).map (fun sr => (c :: sr.1, sr.2))

theorem hexVal_hexDigitChar : ∀ n < 16, hexVal (hexDigitChar n) = some n := by
  decide

theorem parseStringBody_escape : ∀ (s : List Char) (fuel : ℕ)
    (rest : List Char), s.length + 1 ≤ fuel →
    parseStringBody fuel (escapeStr s ++ '"' :: rest) = some (s, rest)
  | [], fuel, rest, hfu => by
    obtain ⟨f, rfl⟩ : ∃ f, fuel = f + 1 := ⟨fuel - 1, by omega⟩
    rw [show escapeStr [] ++ '"' :: rest = '"' :: rest from rfl]
    rw [parseStringBody, if_pos rfl]
  | c :: s, fuel, rest, h => by
    obtain ⟨f, rfl⟩ : ∃ f, fuel = f + 1 := ⟨fuel - 1, by omega⟩
    have ih := parseStringBody_escape s f rest (by simpa using h)
    have hexp : escapeStr (c :: s) ++ '"' :: rest =
        escapeChar c ++ (escapeStr s ++ '"' :: rest) := by
      rw [escapeStr, List.map_cons, List.flatten_cons, ← escapeStr,
        List.append_assoc]
    rw [hexp]
    by_cases h1 : c = '"'
    · subst h1
      rw [show escapeChar '"' = ['\\', '"'] from by decide]
      simp only [List.cons_append, List.nil_append]
      rw [parseStringBody, if_neg (by decide), if_pos rfl]
      rw [show parseEscape ('"' :: (escapeStr s ++ '"' :: rest)) =
        some ('"', escapeStr s ++ '"' :: rest) from rfl]
      rw [Option.some_bind, ih]
      rfl
    · by_cases h2 : c = '\\'
      · subst h2
        rw [show escapeChar '\\' = ['\\', '\\'] from by decide]
        simp only [List.cons_append, List.nil_append]
        rw [parseStringBody, if_neg (by decide), if_pos rfl]
        rw [show parseEscape ('\\' :: (escapeStr s ++ '"' :: rest)) =
          some ('\\', escapeStr s ++ '"' :: rest) from rfl]
        rw [Option.some_bind, ih]
        rfl
      · by_cases h3 : c = '\n'
        · subst h3
          rw [show escapeChar '\n' = ['\\', 'n'] from by decide]
          simp only [List.cons_append, List.nil_append]
          rw [parseStringBody, if_neg (by decide), if_pos rfl]
          rw [show parseEscape ('n' :: (escapeStr s ++ '"' :: rest)) =
            some ('\n', escapeStr s ++ '"' :: rest) from rfl]
          rw [Option.some_bind, ih]
          rfl
        · by_cases h4 : c = '\r'
          · subst h4
            rw [show escapeChar '\r' = ['\\', 'r'] from by decide]
            simp only [List.cons_append, List.nil_append]
            rw [parseStringBody, if_neg (by decide), if_pos rfl]
            rw [show parseEscape ('r' :: (escapeStr s ++ '"' :: rest)) =
              some ('\r', escapeStr s ++ '"' :: rest) from rfl]
            rw [Option.some_bind, ih]
            rfl
          · by_cases h5 : c = '\t'
            · subst h5
              rw [show escapeChar '\t' = ['\\', 't'] from by decide]
              simp only [List.cons_append, List.nil_append]
              rw [parseStringBody, if_neg (by decide), if_pos rfl]
              rw [show parseEscape ('t' :: (escapeStr s ++ '"' :: rest)) =
                some ('\t', escapeStr s ++ '"' :: rest) from rfl]
              rw [Option.some_bind, ih]
              rfl
            · by_cases h6 : c = '\x08'
              · subst h6
                rw [show escapeChar '\x08' = ['\\', 'b'] from by decide]
                simp only [List.cons_append, List.nil_append]
                rw [parseStringBody, if_neg (by decide), if_pos rfl]
                rw [show parseEscape ('b' :: (escapeStr s ++ '"' :: rest)) =
                  some ('\x08', escapeStr s ++ '"' :: rest) from rfl]
                rw [Option.some_bind, ih]
                rfl
              · by_cases h7 : c = '\x0c'
                · subst h7
                  rw [show escapeChar '\x0c' = ['\\', 'f'] from by decide]
                  simp only [List.cons_append, List.nil_append]
                  rw [parseStringBody, if_neg (by decide), if_pos rfl]
                  rw [show parseEscape ('f' :: (escapeStr s ++ '"' :: rest)) =
                    some ('\x0c', escapeStr s ++ '"' :: rest) from rfl]
                  rw [Option.some_bind, ih]
                  rfl
                · by_cases h8 : c.toNat < 32
                  · rw [escapeChar]
                    simp only [if_neg h1, if_neg h2, if_neg h3, if_neg h4,
                      if_neg h5, if_neg h6, if_neg h7, if_pos h8,
                      List.cons_append, List.nil_append]
                    rw [parseStringBody, if_neg (by decide), if_pos rfl]
                    rw [parseEscape]
                    rw [if_neg (by decide), if_neg (by decide),
                      if_neg (by decide), if_neg (by decide),
                      if_neg (by decide), if_neg (by decide),
                      if_neg (by decide), if_neg (by decide), if_pos rfl]
                    rw [if_pos (by simp)]
                    simp only [List.getD_cons_zero, List.getD_cons_succ,
                      List.drop_succ_cons, List.drop_zero]
                    rw [show hexVal '0' = some 0 from rfl,
                      hexVal_hexDigitChar (c.toNat / 16) (by omega),
                      hexVal_hexDigitChar (c.toNat % 16) (by omega)]
                    simp only [Option.some_bind]
                    have hvv : 0 * 4096 + 0 * 256 + c.toNat / 16 * 16 +
                        c.toNat % 16 = c.toNat := by omega
                    rw [hvv]
                    rw [if_pos (Or.inl (by omega : c.toNat < 55296))]
                    rw [Char.ofNat_toNat, Option.some_bind, ih]
                    rfl
                  · rw [escapeChar]
                    simp only [if_neg h1, if_neg h2, if_neg h3, if_neg h4,
                      if_neg h5, if_neg h6, if_neg h7, if_neg h8,
                      List.cons_append, List.nil_append]
                    rw [parseStringBody, if_neg h1, if_neg h2, ih]
                    rfl

end StockPortfolio

namespace StockPortfolio

/-! ### JSON numbers -/

/-- The characters on which a serialized number must end in context:
the end of input or a separator/closing bracket. -/
def StopsNum (rest : List Char) : Prop :=
  rest = [] ∨ ∃ c cs, rest = c :: cs ∧ (c = ',' ∨ c = ']' ∨ c = '\x7d')

theorem takeWhile_dropWhile_append {p : Char → Bool} :
    ∀ (l rest : List Char), (∀ a ∈ l, p a = true) →
    (∀ c, rest.head? = some c → p c = false) →
    (l ++ rest).takeWhile p = l ∧ (l ++ rest).dropWhile p = rest
  | [], rest, _, hstop => by
    rcases rest with _ | ⟨c, cs⟩
    · exact ⟨rfl, rfl⟩
    · have hc := hstop c rfl
      simp [List.takeWhile_cons, List.dropWhile_cons, hc]
  | a :: l, rest, hall, hstop => by
    have ih := takeWhile_dropWhile_append l rest
      (fun x hx => hall x (by simp [hx])) hstop
    have ha := hall a (by simp)
    simp [List.takeWhile_cons, List.dropWhile_cons, ha, ih.1, ih.2]

theorem stopsNum_not_digit {rest : List Char} (h : StopsNum rest) :
    ∀ c, rest.head? = some c → c.isDigit = false := by
  intro c hc
  rcases h with rfl | ⟨c', cs, rfl, hcs⟩
  · simp at hc
  · simp at hc
    subst hc
    rcases hcs with rfl | rfl | rfl <;> decide

/-- The JSON-number production of `json.loads`: optional minus, integer
digits, optional fraction, optional exponent; the value is assembled as
a decimal literal. -/
def parseNumber (cs : List Char) : Option (Json × List Char) :=
  let cs1 := if cs.head? = some '-' then cs.tail else cs
  let ds := cs1.takeWhile Char.isDigit
  let r1 := cs1.dropWhile Char.isDigit
  if ds = [] then none
  else
    let fr := if r1.head? = some '.' then r1.tail.takeWhile Char.isDigit else []
    let r2 := if r1.head? = some '.' then r1.tail.dropWhile Char.isDigit else r1
    if r1.head? = some '.' ∧ fr = [] then none
    else
      let mAbs : ℤ := (digitsToNat (ds ++ fr) : ℤ)
      let m : ℤ := if cs.head? = some '-' then -mAbs else mAbs
      if r2.head? = some 'e' ∨ r2.head? = some 'E' then
        let r3 := r2.tail
        let r4 := if r3.head? = some '-' ∨ r3.head? = some '+' then r3.tail
          else r3
        let eds := r4.takeWhile Char.isDigit
        let r5 := r4.dropWhile Char.isDigit
        if eds = [] then none
        else
          some (.num ⟨m,
            (if r3.head? = some '-' then -(digitsToNat eds : ℤ)
              else (digitsToNat eds : ℤ)) - fr.length⟩, r5)
      else some (.num ⟨m, -(fr.length : ℤ)⟩, r2)

end StockPortfolio

namespace StockPortfolio

theorem natToChars_stop_digit {r : List Char}
    (hr : ∀ c, r.head? = some c → c.isDigit = false) (k : ℕ) :
    (natToChars k ++ r).takeWhile Char.isDigit = natToChars k ∧
      (natToChars k ++ r).dropWhile Char.isDigit = r :=
  takeWhile_dropWhile_append (natToChars k) r (natToChars_all_digits k) hr

theorem natToChars_head_digit (k : ℕ) :
    ∃ a A, natToChars k = a :: A ∧ a.isDigit = true := by
  rcases hA : natToChars k with _ | ⟨a, A⟩
  · exact absurd hA (natToChars_ne_nil k)
  · exact ⟨a, A, rfl, natToChars_all_digits k a (by rw [hA]; simp)⟩

theorem intToChars_neg {z : ℤ} (h : z < 0) :
    intToChars z = '-' :: natToChars z.natAbs := by
  rw [intToChars, if_pos h]

theorem intToChars_nonneg {z : ℤ} (h : ¬ z < 0) :
    intToChars z = natToChars z.natAbs := by
  rw [intToChars, if_neg h]

theorem parseNumber_numToChars (n : JNum) (rest : List Char)
    (hstop : StopsNum rest) :
    parseNumber (numToChars n ++ rest) = some (.num n, rest) := by
  obtain ⟨m, e⟩ := n
  have hstopdig := stopsNum_not_digit hstop
  have hAne := natToChars_ne_nil m.natAbs
  have hBne := natToChars_ne_nil e.natAbs
  obtain ⟨het, hed⟩ := natToChars_stop_digit (r := rest) hstopdig e.natAbs
  obtain ⟨a, A, hA, haDig⟩ := natToChars_head_digit m.natAbs
  obtain ⟨b, B, hB, hbDig⟩ := natToChars_head_digit e.natAbs
  have haNe : (a = '-') = False := by
    simp only [eq_iff_iff, iff_false]
    intro hc
    rw [hc] at haDig
    exact absurd haDig (by decide)
  have hbNeMinus : (b = '-') = False := by
    simp only [eq_iff_iff, iff_false]
    intro hc
    rw [hc] at hbDig
    exact absurd hbDig (by decide)
  have hbNePlus : (b = '+') = False := by
    simp only [eq_iff_iff, iff_false]
    intro hc
    rw [hc] at hbDig
    exact absurd hbDig (by decide)
  have hBhead : (natToChars e.natAbs ++ rest).head? = some b := by
    rw [hB]
    simp
  have hinput : numToChars ⟨m, e⟩ ++ rest =
      intToChars m ++ 'e' :: (intToChars e ++ rest) := by
    rw [numToChars, List.append_assoc, List.cons_append]
  rw [hinput]
  by_cases hm : m < 0 <;> by_cases he : e < 0
  · have hmant := natToChars_stop_digit
      (r := 'e' :: ('-' :: (natToChars e.natAbs ++ rest)))
      (by intro c hc; simp at hc; subst hc; decide) m.natAbs
    rw [intToChars_neg hm, intToChars_neg he]
    simp only [List.cons_append]
    simp only [parseNumber, List.head?_cons, List.tail_cons]
    simp [hmant.1, hmant.2, hAne, hBne, het, hed, digitsToNat_natToChars,
      JNum.mk.injEq]
    simp only [abs_of_neg hm, abs_of_neg he]
    omega
  · have hmant := natToChars_stop_digit
      (r := 'e' :: (natToChars e.natAbs ++ rest))
      (by intro c hc; simp at hc; subst hc; decide) m.natAbs
    rw [intToChars_neg hm, intToChars_nonneg he]
    simp only [List.cons_append]
    simp only [parseNumber, List.head?_cons, List.tail_cons]
    simp [hmant.1, hmant.2, hAne, hBne, het, hed, hBhead, hbNeMinus,
      hbNePlus, digitsToNat_natToChars, JNum.mk.injEq]
    simp only [abs_of_neg hm]
    omega
  · have hmant := natToChars_stop_digit
      (r := 'e' :: ('-' :: (natToChars e.natAbs ++ rest)))
      (by intro c hc; simp at hc; subst hc; decide) m.natAbs
    have hAhead : (natToChars m.natAbs ++
        ('e' :: ('-' :: (natToChars e.natAbs ++ rest)))).head? = some a := by
      rw [hA]
      simp
    rw [intToChars_nonneg hm, intToChars_neg he]
    simp only [List.cons_append]
    simp only [parseNumber]
    simp [hAhead, haNe, hmant.1, hmant.2, hAne, hBne, het, hed,
      digitsToNat_natToChars, JNum.mk.injEq, List.head?_cons,
      List.tail_cons]
    simp only [abs_of_neg he]
    omega
  · have hmant := natToChars_stop_digit
      (r := 'e' :: (natToChars e.natAbs ++ rest))
      (by intro c hc; simp at hc; subst hc; decide) m.natAbs
    have hAhead : (natToChars m.natAbs ++
        ('e' :: (natToChars e.natAbs ++ rest))).head? = some a := by
      rw [hA]
      simp
    rw [intToChars_nonneg hm, intToChars_nonneg he]
    simp only [parseNumber]
    simp [hAhead, haNe, hmant.1, hmant.2, hAne, hBne, het, hed, hBhead,
      hbNeMinus, hbNePlus, digitsToNat_natToChars, JNum.mk.injEq,
      List.head?_cons, List.tail_cons]
    omega

end StockPortfolio

namespace StockPortfolio

/-! ### The JSON parser (`json.loads`) and serializer (`json.dumps`)

`json.dumps` uses the default separators `", "` and `": "` and, with
`ensure_ascii=False`, the escaping of `escapeChar`.  The parser is a
fueled recursive-descent reader of the JSON grammar; fuel bounds the
nesting depth consumed, and the input length plus one is always enough
fuel. -/

/-- The whitespace `json.loads` skips. -/
def wsChar (c : Char) : Bool := c = ' ' || c = '\t' || c = '\n' || c = '\r'

def skipWs (cs : List Char) : List Char := cs.dropWhile wsChar

def headTail : List Char → Option (Char × List Char)
  | [] => none
  | c :: cs => some (c, cs)

mutual

/-- Parse one JSON value. -/
def parseVal : ℕ → List Char → Option (Json × List Char)
  | 0, _ => none
  | fuel + 1, cs =>
    (headTail (skipWs cs)).bind (fun cr =>
      if cr.1 = 'n' then
        if cr.2.take 3 = ['u', 'l', 'l'] then some (.null, cr.2.drop 3)
        else none
      else if cr.1 = 't' then
        if cr.2.take 3 = ['r', 'u', 'e'] then some (.bool true, cr.2.drop 3)
        else none
      else if cr.1 = 'f' then
        if cr.2.take 4 = ['a', 'l', 's', 'e'] then
          some (.bool false, cr.2.drop 4)
        else none
      else if cr.1 = '"' then
        (parseStringBody (cr.2.length + 1) cr.2).map
          (fun sr => (.str sr.1, sr.2))
      else if cr.1 = '[' then
        if (skipWs cr.2).head? = some ']' then
          some (.arr [], (skipWs cr.2).tail)
        else (parseElems fuel cr.2).map (fun vr => (.arr vr.1, vr.2))
      else if cr.1 = '\x7b' then
        if (skipWs cr.2).head? = some '\x7d' then
          some (.obj [], (skipWs cr.2).tail)
        else (parseFields fuel cr.2).map (fun vr => (.obj vr.1, vr.2))
      else parseNumber (cr.1 :: cr.2))

/-- Parse the elements of a non-empty array up to the closing `]`. -/
def parseElems : ℕ → List Char → Option (List Json × List Char)
  | 0, _ => none
  | fuel + 1, cs =>
    (parseVal fuel cs).bind (fun vr =>
      (headTail (skipWs vr.2)).bind (fun cr =>
        if cr.1 = ',' then
          (parseElems fuel cr.2).map (fun lr => (vr.1 :: lr.1, lr.2))
        else if cr.1 = ']' then some ([vr.1], cr.2)
        else none))

/-- Parse the fields of a non-empty object up to the closing brace. -/
def parseFields : ℕ → List Char → Option (List (List Char × Json) × List Char)
  | 0, _ => none
  | fuel + 1, cs =>
    (headTail (skipWs cs)).bind (fun cr =>
      if cr.1 = '"' then
        (parseStringBody (cr.2.length + 1) cr.2).bind (fun kr =>
          (headTail (skipWs kr.2)).bind (fun co =>
            if co.1 = ':' then
              (parseVal fuel co.2).bind (fun vr =>
                (headTail (skipWs vr.2)).bind (fun dr =>
                  if dr.1 = ',' then
                    (parseFields fuel dr.2).map
                      (fun lr => ((kr.1, vr.1) :: lr.1, lr.2))
                  else if dr.1 = '\x7d' then some ([(kr.1, vr.1)], dr.2)
                  else none))
            else none))
      else none)

end

mutual

/-- `json.dumps` of a value (default separators, `ensure_ascii=False`). -/
def jdump : Json → List Char
  | .null => 'n' :: 'u' :: ['l', 'l']
  | .bool true => 't' :: ['r', 'u', 'e']
  | .bool false => 'f' :: ['a', 'l', 's', 'e']
  | .num n => numToChars n
  | .str s => '"' :: (escapeStr s ++ ['"'])
  | .arr [] => ['[', ']']
  | .arr (v :: vs) => '[' :: jdumpElemsTail (v :: vs)
  | .obj [] => ['\x7b', '\x7d']
  | .obj (kv :: kvs) => '\x7b' :: jdumpFieldsTail (kv :: kvs)

/-- The element list of a non-empty array, including the closing `]`. -/
def jdumpElemsTail : List Json → List Char
  | [] => []
  | [v] => jdump v ++ [']']
  | v :: w :: vs => jdump v ++ ',' :: ' ' :: jdumpElemsTail (w :: vs)

/-- The field list of a non-empty object, including the closing brace. -/
def jdumpFieldsTail : List (List Char × Json) → List Char
  | [] => []
  | [(k, v)] => '"' :: (escapeStr k ++ '"' :: ':' :: ' ' :: (jdump v ++ ['\x7d']))
  | (k, v) :: kv :: kvs =>
    '"' :: (escapeStr k ++ '"' :: ':' :: ' ' ::
      (jdump v ++ ',' :: ' ' :: jdumpFieldsTail (kv :: kvs)))

end

mutual

/-- Sufficient parser fuel for a value. -/
def jfuel : Json → ℕ
  | .null => 1
  | .bool _ => 1
  | .num _ => 1
  | .str _ => 1
  | .arr [] => 1
  | .arr (v :: vs) => 1 + efuel (v :: vs)
  | .obj [] => 1
  | .obj (kv :: kvs) => 1 + ffuel (kv :: kvs)

/-- Sufficient parser fuel for an element list. -/
def efuel : List Json → ℕ
  | [] => 1
  | v :: vs => 1 + max (jfuel v) (efuel vs)

/-- Sufficient parser fuel for a field list. -/
def ffuel : List (List Char × Json) → ℕ
  | [] => 1
  | (_, v) :: kvs => 1 + max (jfuel v) (ffuel kvs)

end

end StockPortfolio

namespace StockPortfolio

/-! ### Facts about serialized heads and whitespace -/

theorem jdump_null : jdump .null = ['n', 'u', 'l', 'l'] := by rw [jdump]

theorem jdump_true : jdump (.bool true) = ['t', 'r', 'u', 'e'] := by rw [jdump]

theorem jdump_false : jdump (.bool false) = ['f', 'a', 'l', 's', 'e'] := by
  rw [jdump]

theorem jdump_num (n : JNum) : jdump (.num n) = numToChars n := by rw [jdump]

theorem jdump_str (s : List Char) :
    jdump (.str s) = '"' :: (escapeStr s ++ ['"']) := by rw [jdump]

theorem jdump_arr_nil : jdump (.arr []) = ['[', ']'] := by rw [jdump]

theorem jdump_arr_cons (v : Json) (vs : List Json) :
    jdump (.arr (v :: vs)) = '[' :: jdumpElemsTail (v :: vs) := by rw [jdump]

theorem jdump_obj_nil : jdump (.obj []) = ['\x7b', '\x7d'] := by rw [jdump]

theorem jdump_obj_cons (kv : List Char × Json)
    (kvs : List (List Char × Json)) :
    jdump (.obj (kv :: kvs)) = '\x7b' :: jdumpFieldsTail (kv :: kvs) := by
  rw [jdump]

theorem jdumpElemsTail_single (v : Json) :
    jdumpElemsTail [v] = jdump v ++ [']'] := by rw [jdumpElemsTail]

theorem jdumpFieldsTail_single (k : List Char) (v : Json) :
    jdumpFieldsTail [(k, v)] =
      '"' :: (escapeStr k ++ '"' :: ':' :: ' ' :: (jdump v ++ ['\x7d'])) := by
  rw [jdumpFieldsTail]

theorem jdumpFieldsTail_cons (k : List Char) (v : Json)
    (kv : List Char × Json) (kvs : List (List Char × Json)) :
    jdumpFieldsTail ((k, v) :: kv :: kvs) =
      '"' :: (escapeStr k ++ '"' :: ':' :: ' ' ::
        (jdump v ++ ',' :: ' ' :: jdumpFieldsTail (kv :: kvs))) := by
  rw [jdumpFieldsTail]

theorem skipWs_not_ws {c : Char} (cs : List Char) (h : wsChar c = false) :
    skipWs (c :: cs) = c :: cs := by
  simp [skipWs, List.dropWhile_cons, h]

theorem jfuel_pos (v : Json) : 1 ≤ jfuel v := by
  cases v with
  | arr elems => cases elems <;> (rw [jfuel]; try omega)
  | obj fields => cases fields <;> (rw [jfuel]; try omega)
  | null => rw [jfuel]
  | bool b => rw [jfuel]
  | num n => rw [jfuel]
  | str s => rw [jfuel]

theorem jdumpElemsTail_two (v w : Json) (vs : List Json) :
    jdumpElemsTail (v :: w :: vs) =
      jdump v ++ ',' :: ' ' :: jdumpElemsTail (w :: vs) := by
  rw [jdumpElemsTail]

theorem efuel_pos (vs : List Json) : 1 ≤ efuel vs := by
  cases vs <;> (rw [efuel]; try omega)

theorem ffuel_pos (kvs : List (List Char × Json)) : 1 ≤ ffuel kvs := by
  cases kvs <;> (rw [ffuel]; try omega)

theorem digit_head_facts (c : Char) (h : c.isDigit = true) :
    wsChar c = false ∧ (c = 'n') = False ∧ (c = 't') = False ∧
      (c = 'f') = False ∧ (c = '"') = False ∧ (c = '[') = False ∧
      (c = '\x7b') = False ∧ (c = ']') = False ∧ (c = '\x7d') = False := by
  refine ⟨?_, ?_, ?_, ?_, ?_, ?_, ?_, ?_, ?_⟩
  · rcases hc : wsChar c
    · rfl
    · simp [wsChar] at hc
      rcases hc with ((rfl | rfl) | rfl) | rfl <;> simp at h
  all_goals
    simp only [eq_iff_iff, iff_false]
    intro hc
    subst hc
    simp at h

/-- The first character of a serialized value: never whitespace and
never a closing bracket, so the value's text is read intact in any
context. -/
theorem jdump_head (v : Json) :
    ∃ c cs, jdump v = c :: cs ∧ wsChar c = false ∧ (c = ']') = False ∧
      (c = '\x7d') = False := by
  cases v with
  | null => exact ⟨'n', _, jdump_null, by decide, by decide, by decide⟩
  | bool b =>
    cases b
    · exact ⟨'f', _, jdump_false, by decide, by decide, by decide⟩
    · exact ⟨'t', _, jdump_true, by decide, by decide, by decide⟩
  | num n =>
    by_cases hm : n.m < 0
    · have hh : jdump (.num n) =
          '-' :: (natToChars n.m.natAbs ++ 'e' :: intToChars n.e) := by
        rw [jdump_num, numToChars, intToChars_neg hm, List.cons_append]
      exact ⟨'-', _, hh, by decide, by decide, by decide⟩
    · obtain ⟨a, A, hA, haDig⟩ := natToChars_head_digit n.m.natAbs
      obtain ⟨hws, _, _, _, _, _, _, hbr, hbr2⟩ := digit_head_facts a haDig
      have hh : jdump (.num n) = a :: (A ++ 'e' :: intToChars n.e) := by
        rw [jdump_num, numToChars, intToChars_nonneg hm, hA, List.cons_append]
      exact ⟨a, _, hh, hws, hbr, hbr2⟩
  | str s => exact ⟨'"', _, jdump_str s, by decide, by decide, by decide⟩
  | arr elems =>
    cases elems with
    | nil => exact ⟨'[', _, jdump_arr_nil, by decide, by decide, by decide⟩
    | cons v vs =>
      exact ⟨'[', _, jdump_arr_cons v vs, by decide, by decide, by decide⟩
  | obj fields =>
    cases fields with
    | nil => exact ⟨'\x7b', _, jdump_obj_nil, by decide, by decide, by decide⟩
    | cons kv kvs =>
      exact ⟨'\x7b', _, jdump_obj_cons kv kvs, by decide, by decide,
        by decide⟩

end StockPortfolio

namespace StockPortfolio

theorem stopsNum_comma (r : List Char) : StopsNum (',' :: r) :=
  Or.inr ⟨',', r, rfl, Or.inl rfl⟩

theorem stopsNum_rbracket (r : List Char) : StopsNum (']' :: r) :=
  Or.inr ⟨']', r, rfl, Or.inr (Or.inl rfl)⟩

theorem stopsNum_rbrace (r : List Char) : StopsNum ('\x7d' :: r) :=
  Or.inr ⟨'\x7d', r, rfl, Or.inr (Or.inr rfl)⟩

theorem escapeChar_length_pos (c : Char) : 1 ≤ (escapeChar c).length := by
  rw [escapeChar]
  split_ifs <;> simp

theorem escapeStr_length : ∀ s : List Char, s.length ≤ (escapeStr s).length
  | [] => le_rfl
  | c :: s => by
    have ih := escapeStr_length s
    have hc := escapeChar_length_pos c
    rw [escapeStr, List.map_cons, List.flatten_cons, ← escapeStr,
      List.length_append, List.length_cons]
    omega

theorem parseVal_ws (fuel : ℕ) {c : Char} (cs : List Char)
    (h : wsChar c = true) : parseVal fuel (c :: cs) = parseVal fuel cs := by
  cases fuel with
  | zero => rfl
  | succ f =>
    rw [parseVal, parseVal]
    have hsk : skipWs (c :: cs) = skipWs cs := by
      simp [skipWs, List.dropWhile_cons, h]
    rw [hsk]

theorem parseElems_ws (fuel : ℕ) {c : Char} (cs : List Char)
    (h : wsChar c = true) : parseElems fuel (c :: cs) = parseElems fuel cs := by
  cases fuel with
  | zero => rfl
  | succ f =>
    rw [parseElems, parseElems, parseVal_ws f cs h]

theorem parseFields_ws (fuel : ℕ) {c : Char} (cs : List Char)
    (h : wsChar c = true) :
    parseFields fuel (c :: cs) = parseFields fuel cs := by
  cases fuel with
  | zero => rfl
  | succ f =>
    rw [parseFields, parseFields]
    have hsk : skipWs (c :: cs) = skipWs cs := by
      simp [skipWs, List.dropWhile_cons, h]
    rw [hsk]

/-- The head of a serialized number is a minus sign or a digit, hence
none of the keyword/bracket/quote dispatch characters. -/
theorem numToChars_head (n : JNum) :
    ∃ c cs, numToChars n = c :: cs ∧ wsChar c = false ∧ (c = 'n') = False ∧
      (c = 't') = False ∧ (c = 'f') = False ∧ (c = '"') = False ∧
      (c = '[') = False ∧ (c = '\x7b') = False := by
  by_cases hm : n.m < 0
  · have hh : numToChars n =
        '-' :: (natToChars n.m.natAbs ++ 'e' :: intToChars n.e) := by
      rw [numToChars, intToChars_neg hm, List.cons_append]
    exact ⟨'-', _, hh, by decide, by decide, by decide, by decide,
      by decide, by decide, by decide⟩
  · obtain ⟨a, A, hA, haDig⟩ := natToChars_head_digit n.m.natAbs
    obtain ⟨hws, hn, ht, hf, hq, hbk, hbc, _, _⟩ := digit_head_facts a haDig
    have hh : numToChars n = a :: (A ++ 'e' :: intToChars n.e) := by
      rw [numToChars, intToChars_nonneg hm, hA, List.cons_append]
    exact ⟨a, _, hh, hws, hn, ht, hf, hq, hbk, hbc⟩

end StockPortfolio

namespace StockPortfolio

/-- The recursive-descent parser inverts `json.dumps` given sufficient
fuel, in any context where a trailing number would stop. -/
theorem parse_jdump : ∀ fuel : ℕ,
    (∀ (v : Json) (rest : List Char), jfuel v ≤ fuel → StopsNum rest →
      parseVal fuel (jdump v ++ rest) = some (v, rest)) ∧
    (∀ (vs : List Json) (rest : List Char), vs ≠ [] → efuel vs ≤ fuel →
      parseElems fuel (jdumpElemsTail vs ++ rest) = some (vs, rest)) ∧
    (∀ (kvs : List (List Char × Json)) (rest : List Char), kvs ≠ [] →
      ffuel kvs ≤ fuel →
      parseFields fuel (jdumpFieldsTail kvs ++ rest) = some (kvs, rest)) := by
  intro fuel
  induction fuel using Nat.strong_induction_on with
  | _ fuel ih =>
  cases fuel with
  | zero =>
    refine ⟨?_, ?_, ?_⟩
    · intro v rest hfu _
      exact absurd hfu (by have := jfuel_pos v; omega)
    · intro vs rest _ hfu
      exact absurd hfu (by have := efuel_pos vs; omega)
    · intro kvs rest _ hfu
      exact absurd hfu (by have := ffuel_pos kvs; omega)
  | succ f =>
  have ihf := ih f (Nat.lt_succ_self f)
  refine ⟨?_, ?_, ?_⟩
  · -- values
    intro v rest hfu hstop
    cases v with
    | null =>
      rw [jdump_null, show (['n', 'u', 'l', 'l'] : List Char) ++ rest =
        'n' :: ('u' :: 'l' :: 'l' :: rest) from rfl]
      rw [parseVal, skipWs_not_ws _ (by decide), headTail]
      simp
    | bool b =>
      cases b
      · rw [jdump_false, show (['f', 'a', 'l', 's', 'e'] : List Char) ++ rest =
          'f' :: ('a' :: 'l' :: 's' :: 'e' :: rest) from rfl]
        rw [parseVal, skipWs_not_ws _ (by decide), headTail]
        simp
      · rw [jdump_true, show (['t', 'r', 'u', 'e'] : List Char) ++ rest =
          't' :: ('r' :: 'u' :: 'e' :: rest) from rfl]
        rw [parseVal, skipWs_not_ws _ (by decide), headTail]
        simp
    | num n =>
      obtain ⟨c0, cs0, hh, hws0, hn0, ht0, hf0, hq0, hbk0, hbc0⟩ :=
        numToChars_head n
      rw [jdump_num, hh, List.cons_append]
      rw [parseVal, skipWs_not_ws _ hws0, headTail]
      simp only [Option.some_bind, hn0, ht0, hf0, hq0, hbk0, hbc0,
        if_false]
      rw [← List.cons_append, ← hh]
      exact parseNumber_numToChars n rest hstop
    | str s =>
      rw [jdump_str, show ('"' :: (escapeStr s ++ ['"'])) ++ rest =
        '"' :: (escapeStr s ++ '"' :: rest) from by simp]
      rw [parseVal, skipWs_not_ws _ (by decide), headTail]
      simp only [Option.some_bind, if_true, if_false]
      rw [parseStringBody_escape s _ rest (by
        have := escapeStr_length s
        simp [List.length_append]
        omega)]
      rfl
    | arr elems =>
      cases elems with
      | nil =>
        rw [jdump_arr_nil, show (['[', ']'] : List Char) ++ rest =
          '[' :: (']' :: rest) from rfl]
        rw [parseVal, skipWs_not_ws _ (by decide), headTail]
        simp only [Option.some_bind, if_true, if_false]
        rw [skipWs_not_ws _ (by decide)]
        simp
      | cons v vs =>
        obtain ⟨c0, cs0, hd0, hws0, hbr0, _⟩ := jdump_head v
        obtain ⟨t0, hexp⟩ : ∃ t0, jdumpElemsTail (v :: vs) = c0 :: t0 := by
          cases vs with
          | nil => exact ⟨cs0 ++ [']'], by rw [jdumpElemsTail_single, hd0]; rfl⟩
          | cons w ws =>
            exact ⟨cs0 ++ ',' :: ' ' :: jdumpElemsTail (w :: ws),
              by rw [jdumpElemsTail_two, hd0]; rfl⟩
        rw [jdump_arr_cons]
        rw [show ('[' :: jdumpElemsTail (v :: vs)) ++ rest =
          '[' :: (jdumpElemsTail (v :: vs) ++ rest) from rfl]
        rw [parseVal, skipWs_not_ws _ (by decide), headTail]
        simp only [Option.some_bind]
        rw [ihf.2.1 (v :: vs) rest (by simp) (by
          rw [jfuel] at hfu
          omega)]
        simp [hexp, hbr0, hws0, skipWs, List.dropWhile_cons,
          List.cons_append]
    | obj fields =>
      cases fields with
      | nil =>
        rw [jdump_obj_nil, show (['\x7b', '\x7d'] : List Char) ++ rest =
          '\x7b' :: ('\x7d' :: rest) from rfl]
        rw [parseVal, skipWs_not_ws _ (by decide), headTail]
        simp only [Option.some_bind, if_true, if_false]
        rw [skipWs_not_ws _ (by decide)]
        simp
      | cons kv kvs =>
        obtain ⟨k, v⟩ := kv
        obtain ⟨t0, hexp⟩ : ∃ t0, jdumpFieldsTail ((k, v) :: kvs) =
            '"' :: t0 := by
          cases kvs with
          | nil => exact ⟨_, jdumpFieldsTail_single k v⟩
          | cons kv2 kvs2 => exact ⟨_, jdumpFieldsTail_cons k v kv2 kvs2⟩
        rw [jdump_obj_cons]
        rw [show ('\x7b' :: jdumpFieldsTail ((k, v) :: kvs)) ++ rest =
          '\x7b' :: (jdumpFieldsTail ((k, v) :: kvs) ++ rest) from rfl]
        rw [parseVal, skipWs_not_ws _ (by decide), headTail]
        simp only [Option.some_bind]
        rw [ihf.2.2 ((k, v) :: kvs) rest (by simp) (by
          rw [jfuel] at hfu
          omega)]
        simp [hexp, skipWs, wsChar, List.dropWhile_cons, List.cons_append]
  · -- array elements
    intro vs rest hne hfu
    cases vs with
    | nil => exact absurd rfl hne
    | cons v vs =>
      cases vs with
      | nil =>
        rw [jdumpElemsTail_single, List.append_assoc,
          show ([']'] : List Char) ++ rest = ']' :: rest from rfl]
        rw [parseElems]
        rw [ihf.1 v (']' :: rest) (by
          rw [efuel] at hfu
          have := efuel_pos ([] : List Json)
          omega) (stopsNum_rbracket rest)]
        simp only [Option.some_bind]
        rw [skipWs_not_ws _ (by decide), headTail]
        simp
      | cons w ws =>
        rw [jdumpElemsTail_two, List.append_assoc,
          show (',' :: ' ' :: jdumpElemsTail (w :: ws)) ++ rest =
            ',' :: (' ' :: (jdumpElemsTail (w :: ws) ++ rest)) from rfl]
        rw [parseElems]
        rw [ihf.1 v _ (by
          rw [efuel] at hfu
          omega) (stopsNum_comma _)]
        simp only [Option.some_bind]
        rw [skipWs_not_ws _ (by decide), headTail]
        simp only [Option.some_bind, if_true, if_false]
        rw [parseElems_ws f _ (by decide)]
        rw [ihf.2.1 (w :: ws) rest (by simp) (by
          rw [efuel] at hfu
          omega)]
        rfl
  · -- object fields
    intro kvs rest hne hfu
    cases kvs with
    | nil => exact absurd rfl hne
    | cons kv kvs =>
      obtain ⟨k, v⟩ := kv
      cases kvs with
      | nil =>
        rw [jdumpFieldsTail_single]
        rw [show ('"' :: (escapeStr k ++ '"' :: ':' :: ' ' ::
            (jdump v ++ ['\x7d']))) ++ rest =
          '"' :: (escapeStr k ++ '"' :: (':' :: ' ' ::
            (jdump v ++ '\x7d' :: rest))) from by simp]
        rw [parseFields, skipWs_not_ws _ (by decide), headTail]
        simp only [Option.some_bind, if_true, if_false]
        rw [parseStringBody_escape k _ _ (by
          have := escapeStr_length k
          simp [List.length_append]
          omega)]
        simp only [Option.some_bind]
        rw [skipWs_not_ws _ (by decide), headTail]
        simp only [Option.some_bind, if_true, if_false]
        rw [parseVal_ws f _ (by decide)]
        rw [ihf.1 v ('\x7d' :: rest) (by
          rw [ffuel] at hfu
          omega) (stopsNum_rbrace rest)]
        simp only [Option.some_bind]
        rw [skipWs_not_ws _ (by decide), headTail]
        simp
      | cons kv2 kvs2 =>
        rw [jdumpFieldsTail_cons]
        rw [show ('"' :: (escapeStr k ++ '"' :: ':' :: ' ' ::
            (jdump v ++ ',' :: ' ' :: jdumpFieldsTail (kv2 :: kvs2)))) ++
              rest =
          '"' :: (escapeStr k ++ '"' :: (':' :: ' ' ::
            (jdump v ++ ',' :: (' ' ::
              (jdumpFieldsTail (kv2 :: kvs2) ++ rest))))) from by simp]
        rw [parseFields, skipWs_not_ws _ (by decide), headTail]
        simp only [Option.some_bind, if_true, if_false]
        rw [parseStringBody_escape k _ _ (by
          have := escapeStr_length k
          simp [List.length_append]
          omega)]
        simp only [Option.some_bind]
        rw [skipWs_not_ws _ (by decide), headTail]
        simp only [Option.some_bind, if_true, if_false]
        rw [parseVal_ws f _ (by decide)]
        rw [ihf.1 v _ (by
          rw [ffuel] at hfu
          omega) (stopsNum_comma _)]
        simp only [Option.some_bind]
        rw [skipWs_not_ws _ (by decide), headTail]
        simp only [Option.some_bind, if_true, if_false]
        rw [parseFields_ws f _ (by decide)]
        rw [ihf.2.2 (kv2 :: kvs2) rest (by simp) (by
          rw [ffuel] at hfu
          omega)]
        rfl

end StockPortfolio

namespace StockPortfolio

/-- The fuel needed for a value is at most twice its serialized length,
so a fixed length-derived fuel suffices for `json.loads`. -/
theorem jfuel_le_dump : ∀ N : ℕ,
    (∀ v : Json, jfuel v ≤ N → jfuel v ≤ 2 * (jdump v).length) ∧
    (∀ vs : List Json, vs ≠ [] → efuel vs ≤ N →
      efuel vs ≤ 2 * (jdumpElemsTail vs).length) ∧
    (∀ kvs : List (List Char × Json), kvs ≠ [] → ffuel kvs ≤ N →
      ffuel kvs ≤ 2 * (jdumpFieldsTail kvs).length) := by
  intro N
  induction N using Nat.strong_induction_on with
  | _ N ih =>
  cases N with
  | zero =>
    refine ⟨?_, ?_, ?_⟩
    · intro v hfu
      exact absurd hfu (by have := jfuel_pos v; omega)
    · intro vs _ hfu
      exact absurd hfu (by have := efuel_pos vs; omega)
    · intro kvs _ hfu
      exact absurd hfu (by have := ffuel_pos kvs; omega)
  | succ M =>
  have ihf := ih M (Nat.lt_succ_self M)
  have hlen : ∀ v : Json, 1 ≤ (jdump v).length := by
    intro v
    obtain ⟨c, cs, hd, -⟩ := jdump_head v
    rw [hd]
    simp
  refine ⟨?_, ?_, ?_⟩
  · intro v hfu
    cases v with
    | null => rw [jfuel, jdump_null]; simp
    | bool b => cases b <;> rw [jfuel] <;> simp [jdump_true, jdump_false]
    | num n =>
      rw [jfuel]
      have := hlen (.num n)
      omega
    | str s =>
      rw [jfuel]
      have := hlen (.str s)
      omega
    | arr elems =>
      cases elems with
      | nil => rw [jfuel, jdump_arr_nil]; simp
      | cons v vs =>
        rw [jfuel] at hfu ⊢
        rw [jdump_arr_cons]
        have he := ihf.2.1 (v :: vs) (by simp) (by omega)
        simp only [List.length_cons]
        omega
    | obj fields =>
      cases fields with
      | nil => rw [jfuel, jdump_obj_nil]; simp
      | cons kv kvs =>
        rw [jfuel] at hfu ⊢
        rw [jdump_obj_cons]
        have he := ihf.2.2 (kv :: kvs) (by simp) (by omega)
        simp only [List.length_cons]
        omega
  · intro vs hne hfu
    cases vs with
    | nil => exact absurd rfl hne
    | cons v vs =>
      cases vs with
      | nil =>
        rw [efuel, efuel] at hfu ⊢
        rw [jdumpElemsTail_single]
        have hv := ihf.1 v (by omega)
        have h1 := hlen v
        simp only [List.length_append, List.length_cons, List.length_nil]
        omega
      | cons w ws =>
        rw [efuel] at hfu ⊢
        rw [jdumpElemsTail_two]
        have hv := ihf.1 v (by omega)
        have he := ihf.2.1 (w :: ws) (by simp) (by omega)
        simp only [List.length_append, List.length_cons]
        omega
  · intro kvs hne hfu
    cases kvs with
    | nil => exact absurd rfl hne
    | cons kv kvs =>
      obtain ⟨k, v⟩ := kv
      cases kvs with
      | nil =>
        rw [ffuel, ffuel] at hfu ⊢
        rw [jdumpFieldsTail_single]
        have hv := ihf.1 v (by omega)
        have h1 := hlen v
        simp only [List.length_append, List.length_cons, List.length_nil]
        omega
      | cons kv2 kvs2 =>
        rw [ffuel] at hfu ⊢
        rw [jdumpFieldsTail_cons]
        have hv := ihf.1 v (by omega)
        have he := ihf.2.2 (kv2 :: kvs2) (by simp) (by omega)
        simp only [List.length_append, List.length_cons]
        omega

/-- `json.loads`: parse one value with length-derived fuel and require
only whitespace afterwards. -/
def jloads (cs : List Char) : Option Json :=
  (parseVal (2 * cs.length + 2) cs).bind
    (fun vr => if skipWs vr.2 = [] then some vr.1 else none)

/-- `json.loads(json.dumps(v))` recovers `v`. -/
theorem jloads_jdump (v : Json) : jloads (jdump v) = some v := by
  have hfu : jfuel v ≤ 2 * (jdump v).length + 2 := by
    have := (jfuel_le_dump (jfuel v)).1 v le_rfl
    omega
  have h := (parse_jdump (2 * (jdump v).length + 2)).1 v [] hfu (Or.inl rfl)
  rw [List.append_nil] at h
  rw [jloads, h]
  rfl

end StockPortfolio

namespace StockPortfolio

/-! ## The portfolio share-link codec
(`encode_portfolio` / `decode_portfolio` / `restore_from_url`, app.py
lines 1471–1496) -/

/-- A position as serialized into the share link (numeric fields are
decimal literals, see the JSON-number note above). -/
structure StoredPosition where
  ticker : String
  shares : JNum
  cost_price : JNum
  buy_date : String
deriving DecidableEq, Repr

/-- The JSON object `json.dumps` sees for one position dict (insertion
order of the keys). -/
def positionJson (p : StoredPosition) : Json :=
  .obj [("ticker".data, .str p.ticker.data),
    ("shares".data, .num p.shares),
    ("cost_price".data, .num p.cost_price),
    ("buy_date".data, .str p.buy_date.data)]

/-- The JSON array for the whole portfolio. -/
def portfolioJson (ps : List StoredPosition) : Json :=
  .arr (ps.map positionJson)

/-- Read one position back out of its JSON object, field for field. -/
def jsonToPosition : Json → Option StoredPosition
  | .obj [(k1, .str t), (k2, .num sh), (k3, .num cp), (k4, .str bd)] =>
    if k1 = "ticker".data ∧ k2 = "shares".data ∧ k3 = "cost_price".data ∧
        k4 = "buy_date".data then
      some ⟨⟨t⟩, sh, cp, ⟨bd⟩⟩
    else none
  | _ => none

/-- Read a whole portfolio back out of its JSON array. -/
def jsonToPortfolio : Json → Option (List StoredPosition)
  | .arr vs => vs.mapM jsonToPosition
  | _ => none

/-- `encode_portfolio(portfolio)`:
`base64.urlsafe_b64encode(json.dumps(portfolio).encode("utf-8"))`. -/
def encode_portfolio (portfolio : List StoredPosition) : String :=
  ⟨b64encode (utf8Encode (jdump (portfolioJson portfolio)))⟩

/-- `decode_portfolio(encoded)`: decode base64, UTF-8 and JSON; any
exception yields the empty list (the `except` clause at app.py line
1484). -/
def decode_portfolio (encoded : String) : Json :=
  match b64decode encoded.data with
  | none => .arr []
  | some bytes =>
    match utf8Decode bytes with
    | none => .arr []
    | some cs =>
      match jloads cs with
      | none => .arr []
      | some v => v

/-- The session state touched by `restore_from_url`. -/
structure SessionState where
  portfolio : Json
  restored : Bool
deriving Repr

/-- Python truthiness of the decoded value (`if portfolio:`). -/
def jsonTruthy : Json → Bool
  | .null => false
  | .bool b => b
  | .num n => !(n.m == 0)
  | .str s => !s.isEmpty
  | .arr vs => !vs.isEmpty
  | .obj kvs => !kvs.isEmpty

/-- `restore_from_url()`: read the `p` query parameter when present,
decode it, and replace the session portfolio only when the decoded
value is truthy. -/
def restore_from_url (params : Option String) (st : SessionState) :
    SessionState :=
  match params with
  | none => st
  | some encoded =>
    let portfolio := decode_portfolio encoded
    if jsonTruthy portfolio then { portfolio := portfolio, restored := true }
    else st

theorem decode_encode (p : List StoredPosition) :
    decode_portfolio (encode_portfolio p) = portfolioJson p := by
  have h1 : b64decode (encode_portfolio p).data =
      some (utf8Encode (jdump (portfolioJson p))) := by
    rw [show (encode_portfolio p).data =
      b64encode (utf8Encode (jdump (portfolioJson p))) from rfl]
    exact b64decode_b64encode _ (utf8Encode_lt _)
  simp only [decode_portfolio, h1, utf8Decode_utf8Encode, jloads_jdump]

theorem jsonToPosition_positionJson (p : StoredPosition) :
    jsonToPosition (positionJson p) = some p := by
  obtain ⟨t, sh, cp, bd⟩ := p
  rw [positionJson, jsonToPosition]
  rw [if_pos ⟨rfl, rfl, rfl, rfl⟩]

theorem jsonToPortfolio_portfolioJson : ∀ p : List StoredPosition,
    jsonToPortfolio (portfolioJson p) = some p
  | [] => rfl
  | pos :: ps => by
    have ih := jsonToPortfolio_portfolioJson ps
    rw [portfolioJson, jsonToPortfolio] at ih ⊢
    rw [List.map_cons, List.mapM_cons, jsonToPosition_positionJson, ih]
    rfl

end StockPortfolio

namespace StockPortfolio

/-- C4: decoding an encoded portfolio reproduces the original
field-for-field — the decoded JSON is exactly the portfolio's canonical
JSON image, and reading its fields back yields the original list,
including the empty one. -/
theorem C4_encode_decode_roundtrip (p : List StoredPosition) :
    decode_portfolio (encode_portfolio p) = portfolioJson p ∧
      jsonToPortfolio (decode_portfolio (encode_portfolio p)) = some p := by
  refine ⟨decode_encode p, ?_⟩
  rw [decode_encode p, jsonToPortfolio_portfolioJson]

end StockPortfolio

namespace StockPortfolio

/-- C10: `restore_from_url` only replaces the session portfolio when the
decoded value is truthy. When the `p` parameter is absent the state is
untouched; when decoding fails at the base64, UTF-8 or JSON stage the
`except` clause yields `[]`, which is falsy, so the state is again
untouched — in particular an encoded empty portfolio decodes to `[]`
and does not clobber the session. -/
theorem C10_restore_guard :
    (∀ st : SessionState, restore_from_url none st = st) ∧
    (∀ (s : String) (st : SessionState),
      decode_portfolio s = Json.arr [] → restore_from_url (some s) st = st) ∧
    decode_portfolio (encode_portfolio []) = Json.arr [] ∧
    (∀ s : String, b64decode s.data = none →
      decode_portfolio s = Json.arr []) ∧
    (∀ (s : String) (bytes : List ℕ), b64decode s.data = some bytes →
      utf8Decode bytes = none → decode_portfolio s = Json.arr []) ∧
    (∀ (s : String) (bytes : List ℕ) (cs : List Char),
      b64decode s.data = some bytes → utf8Decode bytes = some cs →
      jloads cs = none → decode_portfolio s = Json.arr []) := by
  refine ⟨?_, ?_, ?_, ?_, ?_, ?_⟩
  · intro st
    rfl
  · intro s st hd
    rw [restore_from_url]
    simp only [hd]
    rw [if_neg (by simp [jsonTruthy])]
  · rw [decode_encode]
    rfl
  · intro s hb
    simp only [decode_portfolio, hb]
  · intro s bytes hb hu
    simp only [decode_portfolio, hb, hu]
  · intro s bytes cs hb hu hj
    simp only [decode_portfolio, hb, hu, hj]

theorem C10_restore_guard_witness :
    restore_from_url (some "") ⟨Json.null, false⟩ = ⟨Json.null, false⟩ :=
  C10_restore_guard.2.1 "" ⟨Json.null, false⟩ (by
    show decode_portfolio "" = Json.arr []
    simp only [decode_portfolio,
      show b64decode "".data = some [] from rfl,
      show utf8Decode ([] : List ℕ) = some [] from rfl,
      show jloads ([] : List Char) = none from by rw [jloads]; rfl])

end StockPortfolio
